import Mathlib

/-!
# Practica 6: cursor list and airport graph

A shallow embedding of `List.c` / `List.h` (a doubly linked list with an
internal cursor) and of the graph code of `main.c` (a fixed array of vertices,
each owning a lazily created neighbour list), followed by theorems about them.

Conventions of the embedding.

* A C function that can stop at a false `assert`, dereference `NULL`, touch a
  freed node or leave its array returns `Except Fault _`; the error says which.
* A function that mutates the object it is given returns the new object
  (together with its C return value when it has one).
* `malloc` / `calloc` are taken to succeed.
* `int` values are `Int`.  The only arithmetic the program performs on them is
  `++i` in loops bounded by `size` / `len` and `++g->len` under
  `assert( g->len < g->size )`, so no operation can leave the range of `int`.
* `float` weights are only stored and copied, never computed with; they are
  modelled by rational numbers.
-/

namespace Practica6

/-! ## Failures -/

/-- The ways in which a call can fail instead of returning. -/
inductive Fault
  /-- An `assert( ... )` whose condition is false. -/
  | assertion
  /-- A dereference of the `NULL` pointer. -/
  | nullDeref
  /-- A dereference of a pointer to a node that has been freed. -/
  | dangling
  /-- An access to an array outside of its allocated slots. -/
  | outOfBounds
  /-- The iteration bound of a modelled loop was exhausted (only in the model;
  `is_Neighbor_Of_loop_fuel` shows it does not happen). -/
  | fuel
  deriving DecidableEq, Repr

/-! ## List.h / List.c -/

/-- A `float` weight; the program only stores and copies weights. -/
abbrev Weight := Rat

/-- The part of a node's `Data` that `new_node` initialises: `data.id` and
`data.weight`.  The other fields of a node's `Data` are left as `malloc`
returned them and are read by no function of the program. -/
structure Entry where
  id : Int
  weight : Weight
  deriving DecidableEq, Repr

/-- The value of the `cursor` pointer of a list. -/
inductive Cursor
  /-- `cursor == NULL`. -/
  | null
  /-- The cursor points to the `i`-th node counted from `first` (from 0). -/
  | node (i : Nat)
  /-- The cursor points to a node that has been freed. -/
  | dangling
  deriving DecidableEq, Repr

/-- The C struct `List` (named `DLL` here, `List` being taken).  `items` is the
chain of nodes reached from `first` through `next`, so `first == NULL` iff
`items = []`, and `last` is the last node of the chain; `prev` is the same
chain read backwards. -/
structure DLL where
  items : List Entry
  cursor : Cursor
  deriving DecidableEq, Repr

/-- `new_node( index, weight )`: a fresh node holding `index` and `weight`,
with `next = prev = NULL`. -/
def new_node (index : Int) (weight : Weight) : Option Entry :=
  some { id := index, weight := weight }

/-- `List_New()`: `first = last = cursor = NULL`. -/
def List_New : Option DLL :=
  some { items := [], cursor := Cursor.null }

/-- `List_Push_back( list, data, weight )`. -/
def List_Push_back (list : DLL) (data : Int) (weight : Weight) : Except Fault DLL :=
  match new_node data weight with
  | none => Except.error Fault.assertion
  | some n =>
    if list.items ≠ [] then
      Except.ok { list with items := list.items ++ [n] }
    else
      Except.ok { items := [n], cursor := Cursor.node 0 }

/-- `List_Pop_back( list )`.  When `last != first` the last node is freed and
unlinked and `cursor` is not assigned: if it pointed to that node it now points
to freed memory. -/
def List_Pop_back (list : DLL) : Except Fault DLL :=
  match list.items with
  | [] => Except.error Fault.assertion
  | [_] => Except.ok { items := [], cursor := Cursor.null }
  | items =>
    Except.ok
      { items := items.dropLast
        cursor :=
          if list.cursor = Cursor.node (items.length - 1) then Cursor.dangling
          else list.cursor }

/-- `List_Is_empty( list )`: `!list->first`. -/
def List_Is_empty (list : DLL) : Bool :=
  list.items.isEmpty

/-- The `while( start )` loop of `List_Find`: `rest` is the chain from `start`
and `i` the position of `start`; the result is the position of the node at
which the loop returns `true`, if any. -/
def List_Find_loop (key : Int) : List Entry → Nat → Option Nat
  | [], _ => none
  | start :: rest, i =>
    if start.id = key then some i else List_Find_loop key rest (i + 1)

/-- `List_Find( list, key )`. -/
def List_Find (list : DLL) (key : Int) : Bool × DLL :=
  match List_Find_loop key list.items 0 with
  | some i => (true, { list with cursor := Cursor.node i })
  | none => (false, list)

/-- `List_Remove( list, key )`: unfinished in the source, returns `false`. -/
def List_Remove (_list : DLL) (_key : Int) : Bool := false

/-- `List_Cursor_front( list )`: `cursor = first`. -/
def List_Cursor_front (list : DLL) : DLL :=
  { list with cursor := if list.items = [] then Cursor.null else Cursor.node 0 }

/-- `List_Cursor_back( list )`: `cursor = last`. -/
def List_Cursor_back (list : DLL) : DLL :=
  { list with
    cursor := if list.items = [] then Cursor.null else Cursor.node (list.items.length - 1) }

/-- `List_Cursor_next( list )`: `cursor = cursor->next; return cursor;`. -/
def List_Cursor_next (list : DLL) : Except Fault (Bool × DLL) :=
  match list.cursor with
  | Cursor.null => Except.error Fault.nullDeref
  | Cursor.dangling => Except.error Fault.dangling
  | Cursor.node i =>
    if i < list.items.length then
      if i + 1 < list.items.length then
        Except.ok (true, { list with cursor := Cursor.node (i + 1) })
      else
        Except.ok (false, { list with cursor := Cursor.null })
    else Except.error Fault.dangling

/-- `List_Cursor_prev( list )`: unfinished in the source, returns `false`. -/
def List_Cursor_prev (_list : DLL) : Bool := false

/-- `List_Cursor_end( list )`: `cursor == NULL`. -/
def List_Cursor_end (list : DLL) : Bool :=
  decide (list.cursor = Cursor.null)

/-- `List_Cursor_get( list )`: a copy of the data under the cursor. -/
def List_Cursor_get (list : DLL) : Except Fault Entry :=
  match list.cursor with
  | Cursor.null => Except.error Fault.assertion
  | Cursor.dangling => Except.error Fault.dangling
  | Cursor.node i =>
    match list.items[i]? with
    | some e => Except.ok e
    | none => Except.error Fault.dangling

/-! ### Drivers used to state properties of call sequences -/

/-- `List_Push_back` of the entries of `es`, in order. -/
def pushAll : DLL → List Entry → Except Fault DLL
  | list, [] => Except.ok list
  | list, e :: es =>
    match List_Push_back list e.id e.weight with
    | Except.ok list1 => pushAll list1 es
    | Except.error f => Except.error f

/-- `k` consecutive calls of `List_Pop_back`. -/
def popN : Nat → DLL → Except Fault DLL
  | 0, list => Except.ok list
  | k + 1, list =>
    match List_Pop_back list with
    | Except.ok list1 => popN k list1
    | Except.error f => Except.error f

/-- The list made by `List_New` followed by `List_Push_back` of `es`. -/
def listOf (es : List Entry) : Except Fault DLL :=
  match List_New with
  | some list => pushAll list es
  | none => Except.error Fault.nullDeref

/-- The loop `while( !List_Cursor_end( list ) ) { d = List_Cursor_get( list ); ...;
List_Cursor_next( list ); }` of the traversal protocol.  The first argument
bounds the number of tests of `List_Cursor_end`; `none` means that the bound
was reached before the loop ended.  The result is the sequence of the `d`, one
per round, and the list as the loop leaves it. -/
def traverse_loop : Nat → DLL → List Entry → Except Fault (Option (List Entry × DLL))
  | 0, _, _ => Except.ok none
  | fuel + 1, list, seen =>
    if List_Cursor_end list = true then Except.ok (some (seen, list))
    else
      match List_Cursor_get list with
      | Except.error f => Except.error f
      | Except.ok d =>
        match List_Cursor_next list with
        | Except.error f => Except.error f
        | Except.ok (_, list1) => traverse_loop fuel list1 (seen ++ [d])

/-- The traversal protocol `for( List_Cursor_front( list ); !List_Cursor_end( list );
List_Cursor_next( list ) ) { d = List_Cursor_get( list ); ... }` of `Graph_Print`
and `main`. -/
def traverse (fuel : Nat) (list : DLL) : Except Fault (Option (List Entry × DLL)) :=
  traverse_loop fuel (List_Cursor_front list) []

/-! ## main.c: vertices -/

/-- The C struct `Data` of a vertex.  The four character arrays are kept as
their bytes. -/
structure Data where
  id : Int
  utc_time : Int
  weight : Weight
  iata_code : List Nat
  country : List Nat
  city : List Nat
  name : List Nat
  deriving DecidableEq, Repr

/-- The C struct `Vertex`; `neighbors = none` is the `NULL` pointer. -/
structure Vertex where
  data : Data
  neighbors : Option DLL
  deriving DecidableEq, Repr

/-- `Vertex_Start( v )`: `List_Cursor_front( v->neighbors )`, which dereferences
`v->neighbors`. -/
def Vertex_Start (v : Vertex) : Except Fault Vertex :=
  match v.neighbors with
  | none => Except.error Fault.nullDeref
  | some list => Except.ok { v with neighbors := some (List_Cursor_front list) }

/-- `Vertex_Next( v )`: `List_Cursor_next( v->neighbors )`. -/
def Vertex_Next (v : Vertex) : Except Fault Vertex :=
  match v.neighbors with
  | none => Except.error Fault.nullDeref
  | some list =>
    match List_Cursor_next list with
    | Except.ok (_, list1) => Except.ok { v with neighbors := some list1 }
    | Except.error f => Except.error f

/-- `Vertex_End( v )`: `List_Cursor_end( v->neighbors )`. -/
def Vertex_End (v : Vertex) : Except Fault Bool :=
  match v.neighbors with
  | none => Except.error Fault.nullDeref
  | some list => Except.ok (List_Cursor_end list)

/-- `Vertex_GetNeighborIndex( v )`: `List_Cursor_get( v->neighbors )`. -/
def Vertex_GetNeighborIndex (v : Vertex) : Except Fault Entry :=
  match v.neighbors with
  | none => Except.error Fault.nullDeref
  | some list => List_Cursor_get list

/-! ## main.c: the graph -/

/-- The C enum `eGraphType`. -/
inductive eGraphType
  | UNDIRECTED
  | DIRECTED
  deriving DecidableEq, Repr

/-- The C struct `Graph`; `vertices` is the array allocated by `Graph_New`. -/
structure Graph where
  vertices : List Vertex
  size : Int
  len : Int
  type : eGraphType
  deriving DecidableEq, Repr

/-- The element `vertices[ i ]` of the vertex array. -/
def slot (vertices : List Vertex) (i : Int) : Except Fault Vertex :=
  if i < 0 then Except.error Fault.outOfBounds
  else
    match vertices[i.toNat]? with
    | some v => Except.ok v
    | none => Except.error Fault.outOfBounds

/-- The `for( int i = 0; i < size; ++i )` loop of `find`, entered with `n`
iterations left at index `i`. -/
def find_loop (vertices : List Vertex) (key : Int) : Nat → Nat → Except Fault Int
  | 0, _ => Except.ok (-1)
  | n + 1, i =>
    match slot vertices i with
    | Except.error f => Except.error f
    | Except.ok v => if v.data.id = key then Except.ok i else find_loop vertices key n (i + 1)

/-- The private `find( vertices, size, key )`: the index of the first of the
`size` slots whose id is `key`, or -1. -/
def find (vertices : List Vertex) (size : Int) (key : Int) : Except Fault Int :=
  find_loop vertices key size.toNat 0

/-- The private `find_neighbor( v, index )`; `List_Find` may move the cursor. -/
def find_neighbor (v : Vertex) (index : Int) : Bool × Vertex :=
  match v.neighbors with
  | some list =>
    let r := List_Find list index
    (r.1, { v with neighbors := some r.2 })
  | none => (false, v)

/-- The private `insert( vertex, index, weight )`. -/
def insert (vertex : Vertex) (index : Int) (weight : Weight) : Except Fault Vertex :=
  let vertex1 : Vertex :=
    if vertex.neighbors = none then { vertex with neighbors := List_New } else vertex
  match vertex1.neighbors with
  | none => Except.ok vertex1
  | some _ =>
    let r := find_neighbor vertex1 index
    if r.1 = false then
      match r.2.neighbors with
      | none => Except.error Fault.nullDeref
      | some list =>
        match List_Push_back list index weight with
        | Except.ok list1 => Except.ok { r.2 with neighbors := some list1 }
        | Except.error f => Except.error f
    else Except.ok r.2

/-- The contents of a slot after `calloc`: all bytes zero. -/
def zeroVertex : Vertex :=
  { data :=
      { id := 0, utc_time := 0, weight := 0,
        iata_code := List.replicate 4 0, country := List.replicate 65 0,
        city := List.replicate 65 0, name := List.replicate 65 0 }
    neighbors := none }

/-- `Graph_New( size, type )`. -/
def Graph_New (size : Int) (type : eGraphType) : Except Fault Graph :=
  if size > 0 then
    Except.ok
      { vertices := List.replicate size.toNat zeroVertex, size := size, len := 0, type := type }
  else Except.error Fault.assertion

/-- The value of `sizeof(iata)/sizeof(char)` in `Graph_AddVertex`: `iata` is a
parameter declared `char iata[]`, that is a `char*`, 8 bytes on the 64 bit
targets. -/
def PTR_BYTES : Nat := 8

/-- A loop `for (i = 0; i < n; i++) dst[off + i] = src[from + i];` that stays
inside the array `dst`. -/
def copy_bytes (n : Nat) (src : Nat → Nat) (from_ off : Nat) (dst : List Nat) : List Nat :=
  (List.range n).foldl (fun d i => d.set (off + i) (src (from_ + i))) dst

/-- The four copy loops of `Graph_AddVertex`.  A string argument is given by
the bytes found from its pointer on.  `iata_code` has 4 bytes and is followed
in the struct by `country`: the writes `iata_code[4..7]` of the first loop land
on `country[0..3]`, which the second loop then writes again. -/
def copy_strings (d : Data) (iata country city name : Nat → Nat) : Data :=
  let iata_code1 := copy_bytes (min PTR_BYTES 4) iata 0 0 d.iata_code
  let country1 := copy_bytes (PTR_BYTES - 4) iata 4 0 d.country
  let country2 := copy_bytes PTR_BYTES country 0 0 country1
  let city1 := copy_bytes PTR_BYTES city 0 0 d.city
  let name1 := copy_bytes PTR_BYTES name 0 0 d.name
  { d with iata_code := iata_code1, country := country2, city := city1, name := name1 }

/-- `Graph_AddVertex( g, id, iata, country, city, name, utc )`. -/
def Graph_AddVertex (g : Graph) (id : Int) (iata country city name : Nat → Nat) (utc : Int) :
    Except Fault Graph :=
  if g.len < g.size then
    match slot g.vertices g.len with
    | Except.error f => Except.error f
    | Except.ok vertex =>
      let data1 := copy_strings { vertex.data with id := id, utc_time := utc } iata country city name
      Except.ok
        { g with
          vertices := g.vertices.set g.len.toNat { data := data1, neighbors := none }
          len := g.len + 1 }
  else Except.error Fault.assertion

/-- `Graph_GetSize( g )`. -/
def Graph_GetSize (g : Graph) : Int := g.size

/-- `Graph_GetLen( g )`. -/
def Graph_GetLen (g : Graph) : Int := g.len

/-- The statement `insert( &g->vertices[ at_idx ], index, weight )`. -/
def insert_at (g : Graph) (at_idx index : Int) (weight : Weight) : Except Fault Graph :=
  match slot g.vertices at_idx with
  | Except.error f => Except.error f
  | Except.ok vertex =>
    match insert vertex index weight with
    | Except.error f => Except.error f
    | Except.ok vertex1 => Except.ok { g with vertices := g.vertices.set at_idx.toNat vertex1 }

/-- `Graph_AddWeightedEdge( g, start, finish, peso )`. -/
def Graph_AddWeightedEdge (g : Graph) (start finish : Int) (peso : Weight) :
    Except Fault (Bool × Graph) :=
  if g.len > 0 then
    match find g.vertices g.size start with
    | Except.error f => Except.error f
    | Except.ok start_idx =>
      match find g.vertices g.size finish with
      | Except.error f => Except.error f
      | Except.ok finish_idx =>
        if start_idx = -1 ∨ finish_idx = -1 then Except.ok (false, g)
        else
          match insert_at g start_idx finish_idx peso with
          | Except.error f => Except.error f
          | Except.ok g1 =>
            if g1.type = eGraphType.UNDIRECTED then
              match insert_at g1 finish_idx start_idx peso with
              | Except.error f => Except.error f
              | Except.ok g2 => Except.ok (true, g2)
            else Except.ok (true, g1)
  else Except.error Fault.assertion

/-- `Graph_AddEdge( g, start, finish )`: the same statements as
`Graph_AddWeightedEdge`, with the literal `0.0` as weight. -/
def Graph_AddEdge (g : Graph) (start finish : Int) : Except Fault (Bool × Graph) :=
  if g.len > 0 then
    match find g.vertices g.size start with
    | Except.error f => Except.error f
    | Except.ok start_idx =>
      match find g.vertices g.size finish with
      | Except.error f => Except.error f
      | Except.ok finish_idx =>
        if start_idx = -1 ∨ finish_idx = -1 then Except.ok (false, g)
        else
          match insert_at g start_idx finish_idx 0 with
          | Except.error f => Except.error f
          | Except.ok g1 =>
            if g1.type = eGraphType.UNDIRECTED then
              match insert_at g1 finish_idx start_idx 0 with
              | Except.error f => Except.error f
              | Except.ok g2 => Except.ok (true, g2)
            else Except.ok (true, g1)
  else Except.error Fault.assertion

/-- `Graph_GetDataByIndex( g, vertex_idx )`. -/
def Graph_GetDataByIndex (g : Graph) (vertex_idx : Int) : Except Fault Int :=
  if 0 ≤ vertex_idx ∧ vertex_idx < g.len then
    match slot g.vertices vertex_idx with
    | Except.error f => Except.error f
    | Except.ok v => Except.ok v.data.id
  else Except.error Fault.assertion

/-- `Graph_GetVertexByIndex( g, vertex_idx )`. -/
def Graph_GetVertexByIndex (g : Graph) (vertex_idx : Int) : Except Fault Vertex :=
  if 0 ≤ vertex_idx ∧ vertex_idx < g.len then slot g.vertices vertex_idx
  else Except.error Fault.assertion

/-- The `for (int i = 0; i < Graph_GetLen(g); ++i)` loop of
`Graph_getIndexByValue`, entered with `n` iterations left at index `i`. -/
def Graph_getIndexByValue_loop (g : Graph) (vertex_val : Int) : Nat → Nat → Except Fault Int
  | 0, _ => Except.ok (-1)
  | n + 1, i =>
    match Graph_GetVertexByIndex g i with
    | Except.error f => Except.error f
    | Except.ok vertex =>
      if vertex.data.id = vertex_val then Except.ok i
      else Graph_getIndexByValue_loop g vertex_val n (i + 1)

/-- `Graph_getIndexByValue( g, vertex_val )`. -/
def Graph_getIndexByValue (g : Graph) (vertex_val : Int) : Except Fault Int :=
  Graph_getIndexByValue_loop g vertex_val (Graph_GetLen g).toNat 0

/-- The loop `for (Vertex_Start(vertex); !Vertex_End(vertex); Vertex_Next(vertex))`
of `is_Neighbor_Of`, after `Vertex_Start`: each round tests `Vertex_End`, reads
the entry under the cursor and either returns `true` or calls `Vertex_Next`.
The first argument bounds the number of tests of `Vertex_End`. -/
def is_Neighbor_Of_loop (dest_idx : Int) : Nat → Vertex → Except Fault (Bool × Vertex)
  | 0, _ => Except.error Fault.fuel
  | n + 1, vertex =>
    match Vertex_End vertex with
    | Except.error f => Except.error f
    | Except.ok true => Except.ok (false, vertex)
    | Except.ok false =>
      match Vertex_GetNeighborIndex vertex with
      | Except.error f => Except.error f
      | Except.ok neighbor =>
        if neighbor.id = dest_idx then Except.ok (true, vertex)
        else
          match Vertex_Next vertex with
          | Except.error f => Except.error f
          | Except.ok vertex1 => is_Neighbor_Of_loop dest_idx n vertex1

/-- The number of nodes of the neighbour list of a vertex (0 without list). -/
def Vertex.degree (v : Vertex) : Nat :=
  match v.neighbors with
  | some list => list.items.length
  | none => 0

/-- `is_Neighbor_Of( g, dest, src )`.  The cursor of the list of the `src`
vertex is moved by the traversal.  The loop is given one test of `Vertex_End`
per node and one more. -/
def is_Neighbor_Of (g : Graph) (dest src : Int) : Except Fault (Bool × Graph) :=
  if g.len > 0 then
    match find g.vertices g.size src with
    | Except.error f => Except.error f
    | Except.ok src_idx =>
      match find g.vertices g.size dest with
      | Except.error f => Except.error f
      | Except.ok dest_idx =>
        if src_idx = -1 ∨ dest_idx = -1 then Except.ok (false, g)
        else
          match slot g.vertices src_idx with
          | Except.error f => Except.error f
          | Except.ok vertex =>
            match Vertex_Start vertex with
            | Except.error f => Except.error f
            | Except.ok vertex1 =>
              match is_Neighbor_Of_loop dest_idx (vertex1.degree + 1) vertex1 with
              | Except.error f => Except.error f
              | Except.ok (r, vertex2) =>
                Except.ok (r, { g with vertices := g.vertices.set src_idx.toNat vertex2 })
  else Except.error Fault.assertion

/-! ### Drivers and predicates used to state properties of the graph -/

/-- The arguments of one call of `Graph_AddVertex`. -/
structure VertexArgs where
  id : Int
  iata : Nat → Nat
  country : Nat → Nat
  city : Nat → Nat
  name : Nat → Nat
  utc : Int

/-- `Graph_AddVertex` called with each element of `args`, in order. -/
def addVertices : Graph → List VertexArgs → Except Fault Graph
  | g, [] => Except.ok g
  | g, a :: args =>
    match Graph_AddVertex g a.id a.iata a.country a.city a.name a.utc with
    | Except.ok g1 => addVertices g1 args
    | Except.error f => Except.error f

/-- Slot `k` is the first of the slots `[0, bound)` whose vertex id is `key`. -/
def IsFirstMatch (vertices : List Vertex) (key : Int) (bound k : Nat) : Prop :=
  k < bound ∧ (∃ v, vertices[k]? = some v ∧ v.data.id = key) ∧
    ∀ j v, j < k → vertices[j]? = some v → v.data.id ≠ key

/-- No vertex in the slots `[0, bound)` has id `key`. -/
def NoMatch (vertices : List Vertex) (key : Int) (bound : Nat) : Prop :=
  ∀ j v, j < bound → vertices[j]? = some v → v.data.id ≠ key

/-- A vertex with the given id and neighbour list, its other fields zero. -/
def vertexOf (id : Int) (neighbors : Option DLL) : Vertex :=
  { data := { zeroVertex.data with id := id }, neighbors := neighbors }

/-- A string argument all of whose bytes are zero. -/
def noBytes : Nat → Nat := fun _ => 0

/-- A directed graph of capacity 3 holding the vertices 100 and 200 and no
edge. -/
def twoVertices : Graph :=
  { vertices := [vertexOf 100 none, vertexOf 200 none, zeroVertex]
    size := 3, len := 2, type := eGraphType.DIRECTED }

/-- The entries of the neighbour list of a vertex, from the head; none when
the vertex has no list. -/
def Vertex.entries (v : Vertex) : List Entry :=
  match v.neighbors with
  | some list => list.items
  | none => []

/-- The ids of the entries of the neighbour list of a vertex. -/
def Vertex.ids (v : Vertex) : List Int :=
  v.entries.map Entry.id

/-- The graphs that a client can obtain from `Graph_New` through the public
operations that return: `Graph_AddVertex`, `Graph_AddEdge`,
`Graph_AddWeightedEdge`, `is_Neighbor_Of`, and `Vertex_Start` / `Vertex_Next`
on a vertex handed out by `Graph_GetVertexByIndex` (the traversal that
`Graph_Print` also performs on the slots below `len`).  The remaining public
functions only read the graph. -/
inductive Reachable : Graph → Prop
  | new (size : Int) (type : eGraphType) (g : Graph) :
      Graph_New size type = Except.ok g → Reachable g
  | addVertex (g : Graph) (a : VertexArgs) (g1 : Graph) :
      Reachable g →
      Graph_AddVertex g a.id a.iata a.country a.city a.name a.utc = Except.ok g1 →
      Reachable g1
  | addEdge (g : Graph) (start finish : Int) (r : Bool) (g1 : Graph) :
      Reachable g → Graph_AddEdge g start finish = Except.ok (r, g1) → Reachable g1
  | addWeightedEdge (g : Graph) (start finish : Int) (peso : Weight) (r : Bool) (g1 : Graph) :
      Reachable g → Graph_AddWeightedEdge g start finish peso = Except.ok (r, g1) →
      Reachable g1
  | isNeighbor (g : Graph) (dest src : Int) (r : Bool) (g1 : Graph) :
      Reachable g → is_Neighbor_Of g dest src = Except.ok (r, g1) → Reachable g1
  | vertexStart (g : Graph) (i : Int) (v v1 : Vertex) :
      Reachable g → Graph_GetVertexByIndex g i = Except.ok v → Vertex_Start v = Except.ok v1 →
      Reachable { g with vertices := g.vertices.set i.toNat v1 }
  | vertexNext (g : Graph) (i : Int) (v v1 : Vertex) :
      Reachable g → Graph_GetVertexByIndex g i = Except.ok v → Vertex_Next v = Except.ok v1 →
      Reachable { g with vertices := g.vertices.set i.toNat v1 }

/-- A directed graph holding the vertices 100, 200 and 300 and the edge from
200 to 300 (slot 2). -/
def oneEdge : Graph :=
  { vertices :=
      [vertexOf 100 none,
       vertexOf 200 (some { items := [{ id := 2, weight := 0 }], cursor := Cursor.node 0 }),
       vertexOf 300 none]
    size := 3, len := 3, type := eGraphType.DIRECTED }

/-- The graph `oneEdge` made undirected. -/
def oneEdgeUndirected : Graph :=
  { oneEdge with type := eGraphType.UNDIRECTED }

/-- The end-to-end scenario: `Graph_New( 3, DIRECTED )`, the vertices 100 and
200, and the weighted edge from 100 to 200 with weight 9.0. -/
def endToEnd : Except Fault Graph :=
  match Graph_New 3 eGraphType.DIRECTED with
  | Except.error f => Except.error f
  | Except.ok g0 =>
    match Graph_AddVertex g0 100 noBytes noBytes noBytes noBytes (-6) with
    | Except.error f => Except.error f
    | Except.ok g1 =>
      match Graph_AddVertex g1 200 noBytes noBytes noBytes noBytes (-5) with
      | Except.error f => Except.error f
      | Except.ok g2 =>
        match Graph_AddWeightedEdge g2 100 200 9 with
        | Except.error f => Except.error f
        | Except.ok (_, g3) => Except.ok g3

/-- `Graph_New( 3, DIRECTED )` followed by `Graph_AddVertex` of the vertex
100: one vertex, two unused slots. -/
def oneVertex : Except Fault Graph :=
  match Graph_New 3 eGraphType.DIRECTED with
  | Except.error f => Except.error f
  | Except.ok g0 => Graph_AddVertex g0 100 noBytes noBytes noBytes noBytes (-6)

/-- The graph `g1` differs from `g` at most in the cursors of the neighbour
lists: same `size`, `len` and `type`, same vertex data in every slot, and in
every slot the same list of entries (or no list in both). -/
def SameUpToCursors (g g1 : Graph) : Prop :=
  g1.size = g.size ∧ g1.len = g.len ∧ g1.type = g.type ∧
    g1.vertices.map Vertex.data = g.vertices.map Vertex.data ∧
    g1.vertices.map (fun v => v.neighbors.map DLL.items)
      = g.vertices.map (fun v => v.neighbors.map DLL.items)

/-! ### Invariants of the graph and of the list -/

/-- The invariant `0 <= len <= size` of a graph. -/
def LenInRange (g : Graph) : Prop :=
  0 ≤ g.len ∧ g.len ≤ g.size

/-- The cursor of a list is consistent: it is `NULL` or on a node of the chain.
(In `DLL` the pointers `first` and `last` are the two ends of `items` by
construction, and both are `NULL` exactly when `items` is empty.) -/
def DLL.WF (list : DLL) : Prop :=
  match list.cursor with
  | Cursor.null => True
  | Cursor.node i => i < list.items.length
  | Cursor.dangling => False

/-- The lists that a client can obtain from `List_New` through
`List_Push_back`, `List_Pop_back`, `List_Find`, `List_Cursor_front`,
`List_Cursor_back` and `List_Cursor_next`, for the calls that return. -/
inductive ListReachable : DLL → Prop
  | new (list : DLL) : List_New = some list → ListReachable list
  | push (list : DLL) (data : Int) (weight : Weight) (list1 : DLL) :
      ListReachable list → List_Push_back list data weight = Except.ok list1 →
      ListReachable list1
  | pop (list list1 : DLL) :
      ListReachable list → List_Pop_back list = Except.ok list1 → ListReachable list1
  | find (list : DLL) (key : Int) :
      ListReachable list → ListReachable (List_Find list key).2
  | front (list : DLL) : ListReachable list → ListReachable (List_Cursor_front list)
  | back (list : DLL) : ListReachable list → ListReachable (List_Cursor_back list)
  | next (list : DLL) (r : Bool) (list1 : DLL) :
      ListReachable list → List_Cursor_next list = Except.ok (r, list1) → ListReachable list1

/-- The graphs obtained from `Graph_New` through `Graph_AddVertex`,
`Graph_AddEdge` and `Graph_AddWeightedEdge` only, for the calls that return. -/
inductive Built : Graph → Prop
  | new (size : Int) (type : eGraphType) (g : Graph) :
      Graph_New size type = Except.ok g → Built g
  | addVertex (g : Graph) (a : VertexArgs) (g1 : Graph) :
      Built g →
      Graph_AddVertex g a.id a.iata a.country a.city a.name a.utc = Except.ok g1 →
      Built g1
  | addEdge (g : Graph) (start finish : Int) (r : Bool) (g1 : Graph) :
      Built g → Graph_AddEdge g start finish = Except.ok (r, g1) → Built g1
  | addWeightedEdge (g : Graph) (start finish : Int) (peso : Weight) (r : Bool) (g1 : Graph) :
      Built g → Graph_AddWeightedEdge g start finish peso = Except.ok (r, g1) → Built g1

/-- From `g` to `g1` nothing changed but neighbour lists, which grew at the
tail by entries of weight `w`: `size`, `len`, `type`, the number of slots and
the data of every vertex are the same, and the entries of every slot of `g1` are
those of the same slot of `g` followed by entries of weight `w`. -/
def Grows (w : Weight) (g g1 : Graph) : Prop :=
  g1.size = g.size ∧ g1.len = g.len ∧ g1.type = g.type ∧
    g1.vertices.length = g.vertices.length ∧
    ∀ (j : Nat) (v : Vertex), g.vertices[j]? = some v →
      ∃ v1 t, g1.vertices[j]? = some v1 ∧ v1.data = v.data ∧
        v1.entries = v.entries ++ t ∧ ∀ e ∈ t, e.weight = w

/-- Adjacency is symmetric: the list of slot `i` holds the entry `(j, w)` iff
the list of slot `j` holds the entry `(i, w)`. -/
def Symmetric (g : Graph) : Prop :=
  ∀ (i j : Nat) (w : Weight) (vi vj : Vertex),
    g.vertices[i]? = some vi → g.vertices[j]? = some vj →
    ((({ id := (j : Int), weight := w } : Entry) ∈ vi.entries) ↔
      (({ id := (i : Int), weight := w } : Entry) ∈ vj.entries))

/-- Every entry of every neighbour list has an id in `[0, len)`, and only
slots in `[0, len)` own a neighbour list. -/
def EntriesInRange (g : Graph) : Prop :=
  ∀ (j : Nat) (v : Vertex), g.vertices[j]? = some v →
    (∀ e ∈ v.entries, 0 ≤ e.id ∧ e.id < g.len) ∧ (v.neighbors ≠ none → (j : Int) < g.len)

/-- `Graph_New( 3, UNDIRECTED )`, the vertex 100, and `Graph_AddEdge( g, 100, 0 )`
with the key 0, which is the id of no vertex. -/
def keyZeroEdge : Except Fault Graph :=
  match Graph_New 3 eGraphType.UNDIRECTED with
  | Except.error f => Except.error f
  | Except.ok g0 =>
    match Graph_AddVertex g0 100 noBytes noBytes noBytes noBytes (-6) with
    | Except.error f => Except.error f
    | Except.ok g1 =>
      match Graph_AddEdge g1 100 0 with
      | Except.error f => Except.error f
      | Except.ok (_, g2) => Except.ok g2

/-- The scenario `keyZeroEdge` followed by `Graph_AddVertex` of the vertex
200. -/
def keyZeroThenVertex : Except Fault Graph :=
  match keyZeroEdge with
  | Except.error f => Except.error f
  | Except.ok g => Graph_AddVertex g 200 noBytes noBytes noBytes noBytes (-5)

/-- `List_New`, `List_Push_back` of (1, 0.0) and (2, 0.0), `List_Cursor_back`,
`List_Pop_back`. -/
def poppedUnderCursor : Except Fault DLL :=
  match List_New with
  | none => Except.error Fault.nullDeref
  | some l0 =>
    match List_Push_back l0 1 0 with
    | Except.error f => Except.error f
    | Except.ok l1 =>
      match List_Push_back l1 2 0 with
      | Except.error f => Except.error f
      | Except.ok l2 => List_Pop_back (List_Cursor_back l2)

/-- The private `find` does not resolve `key` to an unused slot: what it returns
for `key` is below `len` (-1, or the index of a vertex that was added). -/
def ResolvesBelowLen (g : Graph) (key : Int) : Prop :=
  ∀ r, find g.vertices g.size key = Except.ok r → r < g.len

/-- The graphs obtained from `Graph_New` through `Graph_AddVertex`,
`Graph_AddEdge` and `Graph_AddWeightedEdge`, when no edge call is given a key
that `find` resolves to an unused slot. -/
inductive BuiltProper : Graph → Prop
  | new (size : Int) (type : eGraphType) (g : Graph) :
      Graph_New size type = Except.ok g → BuiltProper g
  | addVertex (g : Graph) (a : VertexArgs) (g1 : Graph) :
      BuiltProper g →
      Graph_AddVertex g a.id a.iata a.country a.city a.name a.utc = Except.ok g1 →
      BuiltProper g1
  | addEdge (g : Graph) (start finish : Int) (r : Bool) (g1 : Graph) :
      BuiltProper g → ResolvesBelowLen g start → ResolvesBelowLen g finish →
      Graph_AddEdge g start finish = Except.ok (r, g1) → BuiltProper g1
  | addWeightedEdge (g : Graph) (start finish : Int) (peso : Weight) (r : Bool) (g1 : Graph) :
      BuiltProper g → ResolvesBelowLen g start → ResolvesBelowLen g finish →
      Graph_AddWeightedEdge g start finish peso = Except.ok (r, g1) → BuiltProper g1

/-! # Theorems -/

/-! ## Lemmas on the list -/

theorem List_Push_back_ok (list : DLL) (data : Int) (weight : Weight) :
    ∃ list1, List_Push_back list data weight = Except.ok list1 ∧
      list1.items = list.items ++ [{ id := data, weight := weight }] := by
  unfold List_Push_back new_node
  by_cases h : list.items = []
  · simp [h]
  · simp [h]

theorem pushAll_ok (es : List Entry) :
    ∀ list : DLL, ∃ list1, pushAll list es = Except.ok list1 ∧ list1.items = list.items ++ es := by
  induction es with
  | nil => intro list; exact ⟨list, rfl, by simp⟩
  | cons e es ih =>
    intro list
    obtain ⟨l1, h1, hi1⟩ := List_Push_back_ok list e.id e.weight
    obtain ⟨l2, h2, hi2⟩ := ih l1
    refine ⟨l2, ?_, ?_⟩
    · simp [pushAll, h1, h2]
    · simp [hi2, hi1]

theorem listOf_ok (es : List Entry) :
    ∃ list, listOf es = Except.ok list ∧ list.items = es := by
  obtain ⟨l, h, hi⟩ := pushAll_ok es { items := [], cursor := Cursor.null }
  exact ⟨l, by simpa [listOf, List_New] using h, by simpa using hi⟩

theorem List_Pop_back_ok (list : DLL) (h : list.items ≠ []) :
    ∃ list1, List_Pop_back list = Except.ok list1 ∧ list1.items = list.items.dropLast := by
  unfold List_Pop_back
  cases hi : list.items with
  | nil => exact absurd hi h
  | cons a t =>
    cases t with
    | nil => exact ⟨_, rfl, rfl⟩
    | cons b t => exact ⟨_, rfl, rfl⟩

theorem List_Pop_back_empty (list : DLL) (h : list.items = []) :
    List_Pop_back list = Except.error Fault.assertion := by
  unfold List_Pop_back
  rw [h]

theorem popN_ok : ∀ (k : Nat) (list : DLL), k ≤ list.items.length →
    ∃ list1, popN k list = Except.ok list1 ∧ list1.items.length = list.items.length - k := by
  intro k
  induction k with
  | zero => intro list _; exact ⟨list, rfl, by simp⟩
  | succ k ih =>
    intro list hk
    have hne : list.items ≠ [] := by
      intro h0
      rw [h0] at hk
      simp at hk
    obtain ⟨l1, h1, hi1⟩ := List_Pop_back_ok list hne
    have hlen : l1.items.length = list.items.length - 1 := by simp [hi1]
    obtain ⟨l2, h2, hi2⟩ := ih l1 (by omega)
    refine ⟨l2, ?_, ?_⟩
    · simp [popN, h1, h2]
    · omega

theorem List_Is_empty_iff (list : DLL) : List_Is_empty list = true ↔ list.items.length = 0 := by
  unfold List_Is_empty
  cases list.items <;> simp

/-! ## C1 -/

/-- C1: after `List_New` and the pushes of `es` (`n = es.length` calls of
`List_Push_back`), every `k ≤ n` calls of `List_Pop_back` succeed, the list is
not empty after `k < n` of them and empty after exactly `n`, and one more
`List_Pop_back` stops at its assertion instead of returning; so does
`List_Pop_back` on any empty list. -/
theorem C1_push_then_pop (es : List Entry) :
    ∃ list, listOf es = Except.ok list ∧
      (∀ k, k ≤ es.length → ∃ list1, popN k list = Except.ok list1 ∧
        (List_Is_empty list1 = true ↔ k = es.length)) ∧
      popN (es.length + 1) list = Except.error Fault.assertion ∧
      (∀ empty : DLL, List_Is_empty empty = true →
        List_Pop_back empty = Except.error Fault.assertion) := by
  obtain ⟨list, hl, hi⟩ := listOf_ok es
  refine ⟨list, hl, ?_, ?_, ?_⟩
  · intro k hk
    obtain ⟨l1, h1, hlen⟩ := popN_ok k list (by rw [hi]; exact hk)
    refine ⟨l1, h1, ?_⟩
    rw [List_Is_empty_iff, hlen, hi]
    omega
  · obtain ⟨l1, h1, hlen⟩ := popN_ok es.length list (by rw [hi])
    have h0 : l1.items = [] := by
      apply List.eq_nil_of_length_eq_zero
      rw [hlen, hi]
      omega
    have : ∀ (k : Nat) (l l1 : DLL), popN k l = Except.ok l1 →
        popN (k + 1) l = List_Pop_back l1 := by
      intro k
      induction k with
      | zero =>
        intro l l1 h
        simp only [popN] at h
        cases h
        simp only [popN]
        cases List_Pop_back l <;> rfl
      | succ k ih =>
        intro l l1 h
        rw [popN] at h
        rw [popN]
        cases hp : List_Pop_back l with
        | error f => rw [hp] at h; cases h
        | ok l2 =>
          rw [hp] at h
          exact ih l2 l1 h
    rw [this _ _ _ h1, List_Pop_back_empty _ h0]
  · intro empty he
    apply List_Pop_back_empty
    apply List.eq_nil_of_length_eq_zero
    exact (List_Is_empty_iff empty).1 he

/-- C1 at the pushes (1, 2) and (3, 4): not empty after one pop, empty after
two, failure of the third. -/
theorem C1_push_then_pop_witness :
    ∃ list, listOf [⟨1, 2⟩, ⟨3, 4⟩] = Except.ok list ∧
      (∀ k, k ≤ 2 → ∃ list1, popN k list = Except.ok list1 ∧
        (List_Is_empty list1 = true ↔ k = 2)) ∧
      popN 3 list = Except.error Fault.assertion ∧
      (∀ empty : DLL, List_Is_empty empty = true →
        List_Pop_back empty = Except.error Fault.assertion) :=
  C1_push_then_pop [⟨1, 2⟩, ⟨3, 4⟩]

/-! ## C2 -/

theorem traverse_loop_spec (items : List Entry) :
    ∀ (fuel i : Nat) (seen : List Entry), i ≤ items.length → items.length - i < fuel →
      traverse_loop fuel
          { items := items, cursor := if i < items.length then Cursor.node i else Cursor.null } seen
        = Except.ok (some (seen ++ items.drop i, { items := items, cursor := Cursor.null })) := by
  intro fuel
  induction fuel with
  | zero => intro i seen _ h; omega
  | succ fuel ih =>
    intro i seen hi hf
    by_cases hlt : i < items.length
    · have hnext := ih (i + 1) (seen ++ [items[i]]) (by omega) (by omega)
      rw [traverse_loop]
      simp only [hlt, if_true, List_Cursor_end, List_Cursor_get, List_Cursor_next,
        List.getElem?_eq_getElem hlt]
      simp only [reduceCtorEq, decide_False, Bool.false_eq_true, if_false]
      by_cases hlt1 : i + 1 < items.length
      · simp only [hlt1, if_true] at hnext ⊢
        rw [hnext, List.append_assoc, List.singleton_append, List.getElem_cons_drop]
      · simp only [hlt1, if_false] at hnext ⊢
        rw [hnext, List.append_assoc, List.singleton_append, List.getElem_cons_drop]
    · have hin : i = items.length := by omega
      subst hin
      rw [traverse_loop]
      simp [List_Cursor_end]

theorem traverse_loop_short (items : List Entry) :
    ∀ (fuel i : Nat) (seen : List Entry), i ≤ items.length → fuel ≤ items.length - i →
      traverse_loop fuel
          { items := items, cursor := if i < items.length then Cursor.node i else Cursor.null } seen
        = Except.ok none := by
  intro fuel
  induction fuel with
  | zero => intro i seen _ _; rfl
  | succ fuel ih =>
    intro i seen hi hf
    have hlt : i < items.length := by omega
    have hnext := ih (i + 1) (seen ++ [items[i]]) (by omega) (by omega)
    rw [traverse_loop]
    simp only [hlt, if_true, List_Cursor_end, List_Cursor_get, List_Cursor_next,
      List.getElem?_eq_getElem hlt]
    simp only [reduceCtorEq, decide_False, Bool.false_eq_true, if_false]
    by_cases hlt1 : i + 1 < items.length
    · simp only [hlt1, if_true] at hnext ⊢
      exact hnext
    · simp only [hlt1, if_false] at hnext ⊢
      exact hnext

theorem List_Cursor_front_eq (list : DLL) :
    List_Cursor_front list =
      { items := list.items,
        cursor := if 0 < list.items.length then Cursor.node 0 else Cursor.null } := by
  unfold List_Cursor_front
  cases list.items <;> simp

/-- C2: on the list made by `List_New` and the pushes of `es = e1..en`, the
traversal protocol ends whenever it is allowed more than `n` tests of
`List_Cursor_end` (and not with `n` or fewer: it makes exactly `n` rounds), the
entries it reads are exactly `e1..en` in insertion order, and it leaves the list
with `List_Cursor_end = true` and its entries untouched. -/
theorem C2_traversal (es : List Entry) :
    ∃ list, listOf es = Except.ok list ∧
      (∀ fuel, es.length < fuel →
        ∃ final, traverse fuel list = Except.ok (some (es, final)) ∧
          List_Cursor_end final = true ∧ final.items = es) ∧
      (∀ fuel, fuel ≤ es.length → traverse fuel list = Except.ok none) := by
  obtain ⟨list, hl, hi⟩ := listOf_ok es
  refine ⟨list, hl, ?_, ?_⟩
  · intro fuel hf
    refine ⟨{ items := es, cursor := Cursor.null }, ?_, rfl, rfl⟩
    have h := traverse_loop_spec es fuel 0 [] (Nat.zero_le _) (by omega)
    unfold traverse
    rw [List_Cursor_front_eq, hi]
    simpa using h
  · intro fuel hf
    have h := traverse_loop_short es fuel 0 [] (Nat.zero_le _) (by omega)
    unfold traverse
    rw [List_Cursor_front_eq, hi]
    exact h

/-- C2 at the entries (7, 1), (5, 2), (7, 3). -/
theorem C2_traversal_witness :
    ∃ list, listOf [⟨7, 1⟩, ⟨5, 2⟩, ⟨7, 3⟩] = Except.ok list ∧
      (∀ fuel, 3 < fuel →
        ∃ final, traverse fuel list = Except.ok (some ([⟨7, 1⟩, ⟨5, 2⟩, ⟨7, 3⟩], final)) ∧
          List_Cursor_end final = true ∧ final.items = [⟨7, 1⟩, ⟨5, 2⟩, ⟨7, 3⟩]) ∧
      (∀ fuel, fuel ≤ 3 → traverse fuel list = Except.ok none) :=
  C2_traversal [⟨7, 1⟩, ⟨5, 2⟩, ⟨7, 3⟩]

/-! ## C3 -/

theorem List_Find_loop_none (key : Int) (items : List Entry) :
    ∀ k, List_Find_loop key items k = none ↔ ∀ e ∈ items, e.id ≠ key := by
  induction items with
  | nil => intro k; simp [List_Find_loop]
  | cons a t ih =>
    intro k
    by_cases h : a.id = key
    · simp [List_Find_loop, h]
    · simp [List_Find_loop, h, ih (k + 1)]

theorem List_Find_loop_some (key : Int) (items : List Entry) :
    ∀ k i, List_Find_loop key items k = some i →
      ∃ j e, i = k + j ∧ items[j]? = some e ∧ e.id = key ∧
        ∀ j1 e1, j1 < j → items[j1]? = some e1 → e1.id ≠ key := by
  induction items with
  | nil => intro k i h; simp [List_Find_loop] at h
  | cons a t ih =>
    intro k i h
    by_cases ha : a.id = key
    · simp only [List_Find_loop, ha, if_true, Option.some.injEq] at h
      refine ⟨0, a, by omega, by simp, ha, ?_⟩
      intro j1 e1 hj
      omega
    · simp only [List_Find_loop, ha, if_false] at h
      obtain ⟨j, e, hij, hje, hek, hfirst⟩ := ih (k + 1) i h
      refine ⟨j + 1, e, by omega, by simpa using hje, hek, ?_⟩
      intro j1 e1 hj1 he1
      cases j1 with
      | zero =>
        simp only [List.getElem?_cons_zero, Option.some.injEq] at he1
        rw [← he1]
        exact ha
      | succ j1 =>
        simp only [List.getElem?_cons_succ] at he1
        exact hfirst j1 e1 (by omega) he1

theorem List_Find_true_iff_exists (list : DLL) (key : Int) :
    (List_Find list key).1 = true ↔ ∃ e ∈ list.items, e.id = key := by
  unfold List_Find
  cases h : List_Find_loop key list.items 0 with
  | none =>
    have hn := (List_Find_loop_none key list.items 0).1 h
    simp only [Bool.false_eq_true, false_iff, not_exists, not_and]
    intro e he
    exact hn e he
  | some i =>
    obtain ⟨j, e, _, hje, hek, _⟩ := List_Find_loop_some key list.items 0 i h
    simp only [true_iff]
    exact ⟨e, List.mem_iff_getElem?.2 ⟨j, hje⟩, hek⟩

/-- C3: `List_Find` returns `true` iff some entry has id `key`; when it returns
`true` nothing but the cursor has changed, the cursor is on the first entry
from the head whose id is `key`, and `List_Cursor_get` returns that entry; when
it returns `false` the list, cursor included, is as before the call. -/
theorem C3_List_Find (list : DLL) (key : Int) :
    ((List_Find list key).1 = true ↔ ∃ e ∈ list.items, e.id = key) ∧
    ((List_Find list key).1 = true →
      ∃ i e, (List_Find list key).2 = { list with cursor := Cursor.node i } ∧
        list.items[i]? = some e ∧ e.id = key ∧
        (∀ j e1, j < i → list.items[j]? = some e1 → e1.id ≠ key) ∧
        List_Cursor_get (List_Find list key).2 = Except.ok e) ∧
    ((List_Find list key).1 = false → (List_Find list key).2 = list) := by
  unfold List_Find
  cases h : List_Find_loop key list.items 0 with
  | none =>
    have hn := (List_Find_loop_none key list.items 0).1 h
    refine ⟨?_, ?_, ?_⟩
    · simp only [Bool.false_eq_true, false_iff, not_exists, not_and]
      intro e he
      exact hn e he
    · intro hc
      simp at hc
    · intro _
      rfl
  | some i =>
    obtain ⟨j, e, hij, hje, hek, hfirst⟩ := List_Find_loop_some key list.items 0 i h
    have hi : i = j := by omega
    subst hi
    refine ⟨?_, ?_, ?_⟩
    · simp only [true_iff]
      exact ⟨e, List.mem_iff_getElem?.2 ⟨i, hje⟩, hek⟩
    · intro _
      refine ⟨i, e, rfl, hje, hek, hfirst, ?_⟩
      simp [List_Cursor_get, hje]
    · intro hc
      simp at hc

/-- C3 on the list (4, 1), (9, 2), (9, 3) with its cursor on the head and the
key 9: found, and the cursor is moved to position 1. -/
theorem C3_List_Find_witness :
    (List_Find { items := [⟨4, 1⟩, ⟨9, 2⟩, ⟨9, 3⟩], cursor := Cursor.node 0 } 9).1 = true ∧
    ∃ i e, (List_Find { items := [⟨4, 1⟩, ⟨9, 2⟩, ⟨9, 3⟩], cursor := Cursor.node 0 } 9).2 =
          { items := [⟨4, 1⟩, ⟨9, 2⟩, ⟨9, 3⟩], cursor := Cursor.node i } ∧
        ([⟨4, 1⟩, ⟨9, 2⟩, ⟨9, 3⟩] : List Entry)[i]? = some e ∧ e.id = 9 ∧
        (∀ j e1, j < i → ([⟨4, 1⟩, ⟨9, 2⟩, ⟨9, 3⟩] : List Entry)[j]? = some e1 → e1.id ≠ 9) ∧
        List_Cursor_get
            (List_Find { items := [⟨4, 1⟩, ⟨9, 2⟩, ⟨9, 3⟩], cursor := Cursor.node 0 } 9).2 =
          Except.ok e :=
  have h := C3_List_Find { items := [⟨4, 1⟩, ⟨9, 2⟩, ⟨9, 3⟩], cursor := Cursor.node 0 } 9
  have ht : (List_Find { items := [⟨4, 1⟩, ⟨9, 2⟩, ⟨9, 3⟩], cursor := Cursor.node 0 } 9).1 = true :=
    h.1.2 ⟨⟨9, 2⟩, by simp, rfl⟩
  ⟨ht, h.2.1 ht⟩

/-! ## Lemmas on the key searches -/

theorem slot_natCast (vertices : List Vertex) (i : Nat) :
    slot vertices (i : Int) =
      match vertices[i]? with
      | some v => Except.ok v
      | none => Except.error Fault.outOfBounds := by
  unfold slot
  have h : ¬ ((i : Int) < 0) := by omega
  simp only [h, if_false, Int.toNat_ofNat]

theorem find_loop_spec (vertices : List Vertex) (key : Int) :
    ∀ n i, i + n ≤ vertices.length →
      ∃ r, find_loop vertices key n i = Except.ok r ∧
        ((r = -1 ∧ ∀ j v, i ≤ j → j < i + n → vertices[j]? = some v → v.data.id ≠ key) ∨
         (∃ k : Nat, r = (k : Int) ∧ i ≤ k ∧ k < i + n ∧
            (∃ v, vertices[k]? = some v ∧ v.data.id = key) ∧
            ∀ j v, i ≤ j → j < k → vertices[j]? = some v → v.data.id ≠ key)) := by
  intro n
  induction n with
  | zero =>
    intro i _
    refine ⟨-1, rfl, Or.inl ⟨rfl, ?_⟩⟩
    intro j v h1 h2
    omega
  | succ n ih =>
    intro i hi
    have hlt : i < vertices.length := by omega
    rw [find_loop, slot_natCast, List.getElem?_eq_getElem hlt]
    by_cases hk : vertices[i].data.id = key
    · simp only [hk, if_true]
      refine ⟨(i : Int), rfl, Or.inr ⟨i, rfl, le_refl _, by omega, ?_, ?_⟩⟩
      · exact ⟨vertices[i], List.getElem?_eq_getElem hlt, hk⟩
      · intro j v h1 h2
        omega
    · simp only [hk, if_false]
      obtain ⟨r, hr, hcase⟩ := ih (i + 1) (by omega)
      refine ⟨r, hr, ?_⟩
      have hhead : ∀ j v, i ≤ j → j < i + 1 → vertices[j]? = some v → v.data.id ≠ key := by
        intro j v h1 h2 hv
        have hji : j = i := by omega
        subst hji
        rw [List.getElem?_eq_getElem hlt] at hv
        cases hv
        exact hk
      rcases hcase with ⟨hm, hno⟩ | ⟨k, hrk, hik, hkn, hv, hno⟩
      · refine Or.inl ⟨hm, ?_⟩
        intro j v h1 h2 hv
        by_cases hji : j < i + 1
        · exact hhead j v h1 hji hv
        · exact hno j v (by omega) (by omega) hv
      · refine Or.inr ⟨k, hrk, by omega, by omega, hv, ?_⟩
        intro j v h1 h2 hjv
        by_cases hji : j < i + 1
        · exact hhead j v h1 hji hjv
        · exact hno j v (by omega) h2 hjv

/-- What `find` returns when the `size` slots it scans are inside the array. -/
theorem find_spec (vertices : List Vertex) (size key : Int)
    (h : size.toNat ≤ vertices.length) :
    ∃ r, find vertices size key = Except.ok r ∧
      ((r = -1 ∧ NoMatch vertices key size.toNat) ∨
       (∃ k : Nat, r = (k : Int) ∧ IsFirstMatch vertices key size.toNat k)) := by
  obtain ⟨r, hr, hcase⟩ := find_loop_spec vertices key size.toNat 0 (by omega)
  refine ⟨r, hr, ?_⟩
  rcases hcase with ⟨hm, hno⟩ | ⟨k, hrk, _, hkn, hv, hno⟩
  · exact Or.inl ⟨hm, fun j v hj hv => hno j v (Nat.zero_le _) (by omega) hv⟩
  · exact Or.inr ⟨k, hrk, by omega, hv, fun j v hj hjv => hno j v (Nat.zero_le _) hj hjv⟩

theorem Graph_getIndexByValue_loop_eq (g : Graph) (key : Int) :
    ∀ n i, ((i + n : Nat) : Int) ≤ g.len →
      Graph_getIndexByValue_loop g key n i = find_loop g.vertices key n i := by
  intro n
  induction n with
  | zero => intro i _; rfl
  | succ n ih =>
    intro i hi
    have hassert : 0 ≤ (i : Int) ∧ (i : Int) < g.len := by omega
    rw [Graph_getIndexByValue_loop, find_loop, Graph_GetVertexByIndex]
    simp only [hassert, and_self, if_true]
    cases slot g.vertices (i : Int) with
    | error f => rfl
    | ok v =>
      simp only
      rw [ih (i + 1) (by omega)]

theorem Graph_getIndexByValue_eq_find (g : Graph) (key : Int) :
    Graph_getIndexByValue g key = find g.vertices g.len key := by
  unfold Graph_getIndexByValue find Graph_GetLen
  by_cases h : 0 ≤ g.len
  · apply Graph_getIndexByValue_loop_eq
    simp only [zero_add]
    omega
  · have h0 : g.len.toNat = 0 := by omega
    rw [h0]
    rfl

/-! ## C9 -/

/-- C9: on a graph whose slots `[0, len)` lie in its vertex array,
`Graph_getIndexByValue` returns a value `r` which is either -1, and then no
vertex in the slots `[0, len)` has the id `key`, or the least index in
`[0, len)` whose vertex has the id `key`; so it returns -1 iff no vertex in
those slots has that id. -/
theorem C9_Graph_getIndexByValue (g : Graph) (key : Int)
    (hlen : g.len ≤ (g.vertices.length : Int)) :
    ∃ r, Graph_getIndexByValue g key = Except.ok r ∧
      ((r = -1 ∧ NoMatch g.vertices key g.len.toNat) ∨
       (∃ k : Nat, r = (k : Int) ∧ IsFirstMatch g.vertices key g.len.toNat k)) ∧
      (r = -1 ↔ NoMatch g.vertices key g.len.toNat) := by
  rw [Graph_getIndexByValue_eq_find]
  obtain ⟨r, hr, hcase⟩ := find_spec g.vertices g.len key (by omega)
  refine ⟨r, hr, hcase, ?_⟩
  constructor
  · intro hm
    rcases hcase with ⟨_, hno⟩ | ⟨k, hrk, _⟩
    · exact hno
    · omega
  · intro hno
    rcases hcase with ⟨hm, _⟩ | ⟨k, _, hk, ⟨v, hv, hvk⟩, _⟩
    · exact hm
    · exact absurd hvk (hno k v hk hv)

/-- C9 on the graph `twoVertices` and the key 200. -/
theorem C9_Graph_getIndexByValue_witness :
    twoVertices.len ≤ (twoVertices.vertices.length : Int) ∧
    ∃ r, Graph_getIndexByValue twoVertices 200 = Except.ok r ∧
      ((r = -1 ∧ NoMatch twoVertices.vertices 200 twoVertices.len.toNat) ∨
       (∃ k : Nat, r = (k : Int) ∧
          IsFirstMatch twoVertices.vertices 200 twoVertices.len.toNat k)) ∧
      (r = -1 ↔ NoMatch twoVertices.vertices 200 twoVertices.len.toNat) :=
  ⟨by decide, C9_Graph_getIndexByValue twoVertices 200 (by decide)⟩

/-! ## C10 -/

theorem Graph_AddVertex_ok (g : Graph) (a : VertexArgs)
    (h0 : 0 ≤ g.len) (hlt : g.len < g.size) (hsz : g.size ≤ (g.vertices.length : Int)) :
    ∃ g1, Graph_AddVertex g a.id a.iata a.country a.city a.name a.utc = Except.ok g1 ∧
      g1.len = g.len + 1 ∧ g1.size = g.size ∧ g1.type = g.type ∧
      g1.vertices.length = g.vertices.length := by
  unfold Graph_AddVertex slot
  have hneg : ¬ g.len < 0 := by omega
  have hin : g.len.toNat < g.vertices.length := by omega
  simp only [hlt, if_true, hneg, if_false, List.getElem?_eq_getElem hin]
  exact ⟨_, rfl, rfl, rfl, rfl, by simp⟩

theorem addVertices_ok (args : List VertexArgs) :
    ∀ g : Graph, 0 ≤ g.len → g.len + (args.length : Int) ≤ g.size →
      g.size ≤ (g.vertices.length : Int) →
      ∃ g1, addVertices g args = Except.ok g1 ∧ g1.len = g.len + (args.length : Int) ∧
        g1.size = g.size ∧ g1.type = g.type ∧ g1.vertices.length = g.vertices.length := by
  induction args with
  | nil => intro g _ _ _; exact ⟨g, rfl, by simp, rfl, rfl, rfl⟩
  | cons a args ih =>
    intro g h0 hle hsz
    simp only [List.length_cons, Nat.cast_add, Nat.cast_one] at hle ⊢
    obtain ⟨g1, h1, hl1, hs1, ht1, hv1⟩ := Graph_AddVertex_ok g a h0 (by omega) hsz
    obtain ⟨g2, h2, hl2, hs2, ht2, hv2⟩ :=
      ih g1 (by omega) (by rw [hl1, hs1]; omega) (by rw [hs1, hv1]; exact hsz)
    refine ⟨g2, ?_, by omega, by rw [hs2, hs1], by rw [ht2, ht1], by rw [hv2, hv1]⟩
    simp only [addVertices, h1, h2]

theorem Graph_New_ok (size : Int) (type : eGraphType) (h : 0 < size) :
    Graph_New size type =
      Except.ok
        { vertices := List.replicate size.toNat zeroVertex, size := size, len := 0,
          type := type } := by
  unfold Graph_New
  simp only [gt_iff_lt, h, if_true]

/-- C10: `Graph_AddVertex` stops at its assertion (and so writes no vertex) iff
`len >= size`; on a graph with `0 <= len` whose array holds `size` slots it
succeeds iff `len < size`; and after `size` calls of `Graph_AddVertex` on the
result of `Graph_New( size, type )`, all of which succeed, every further call
stops at the assertion. -/
theorem C10_Graph_AddVertex_capacity :
    (∀ (g : Graph) (a : VertexArgs),
      Graph_AddVertex g a.id a.iata a.country a.city a.name a.utc = Except.error Fault.assertion
        ↔ g.len ≥ g.size) ∧
    (∀ (g : Graph) (a : VertexArgs), 0 ≤ g.len → (g.vertices.length : Int) = g.size →
      ((∃ g1, Graph_AddVertex g a.id a.iata a.country a.city a.name a.utc = Except.ok g1)
        ↔ g.len < g.size)) ∧
    (∀ (size : Int) (type : eGraphType) (args : List VertexArgs) (a : VertexArgs),
      0 < size → (args.length : Int) = size →
      ∃ g0 g, Graph_New size type = Except.ok g0 ∧ addVertices g0 args = Except.ok g ∧
        Graph_GetLen g = size ∧
        Graph_AddVertex g a.id a.iata a.country a.city a.name a.utc
          = Except.error Fault.assertion) := by
  have hiff : ∀ (g : Graph) (a : VertexArgs),
      Graph_AddVertex g a.id a.iata a.country a.city a.name a.utc = Except.error Fault.assertion
        ↔ g.len ≥ g.size := by
    intro g a
    unfold Graph_AddVertex slot
    by_cases hlt : g.len < g.size
    · have hge : ¬ g.len ≥ g.size := by omega
      simp only [hlt, if_true, hge, iff_false]
      by_cases hneg : g.len < 0
      · simp [hneg]
      · simp only [hneg, if_false]
        cases g.vertices[g.len.toNat]? <;> simp
    · have hge : g.len ≥ g.size := by omega
      simp only [hlt, if_false, hge]
  refine ⟨hiff, ?_, ?_⟩
  · intro g a h0 hsz
    constructor
    · rintro ⟨g1, h1⟩
      by_contra hge
      have := (hiff g a).2 (by omega)
      rw [this] at h1
      cases h1
    · intro hlt
      obtain ⟨g1, h1, _⟩ := Graph_AddVertex_ok g a h0 hlt (by omega)
      exact ⟨g1, h1⟩
  · intro size type args a hpos hargs
    rw [Graph_New_ok size type hpos]
    obtain ⟨g, hg, hl, hs, _, _⟩ :=
      addVertices_ok args
        (Graph.mk (List.replicate size.toNat zeroVertex) size 0 type)
        (le_refl _) (by simp only [zero_add]; omega)
        (by simp only [List.length_replicate]; omega)
    refine ⟨_, g, rfl, hg, ?_, ?_⟩
    · simp only [Graph_GetLen, hl, zero_add]
      exact hargs
    · rw [hiff]
      simp only [hl, hs, zero_add]
      omega

/-- C10 on the full graph of capacity 1 and on `Graph_New( 2, DIRECTED )`
followed by two calls of `Graph_AddVertex`. -/
theorem C10_Graph_AddVertex_capacity_witness :
    (Graph_AddVertex (Graph.mk [vertexOf 100 none] 1 1 eGraphType.DIRECTED) 7 noBytes noBytes noBytes noBytes 0
      = Except.error Fault.assertion) ∧
    (∃ g0 g, Graph_New 2 eGraphType.DIRECTED = Except.ok g0 ∧
      addVertices g0 [⟨100, noBytes, noBytes, noBytes, noBytes, -6⟩,
          ⟨120, noBytes, noBytes, noBytes, noBytes, -5⟩] = Except.ok g ∧
      Graph_GetLen g = 2 ∧
      Graph_AddVertex g 7 noBytes noBytes noBytes noBytes 0 = Except.error Fault.assertion) :=
  ⟨(C10_Graph_AddVertex_capacity.1
      (Graph.mk [vertexOf 100 none] 1 1 eGraphType.DIRECTED)
      ⟨7, noBytes, noBytes, noBytes, noBytes, 0⟩).2 (by decide),
   C10_Graph_AddVertex_capacity.2.2 2 eGraphType.DIRECTED
      [⟨100, noBytes, noBytes, noBytes, noBytes, -6⟩, ⟨120, noBytes, noBytes, noBytes, noBytes, -5⟩]
      ⟨7, noBytes, noBytes, noBytes, noBytes, 0⟩ (by decide) (by decide)⟩

/-! ## Lemmas on `insert` and on the neighbour traversal -/

theorem List_Find_items (list : DLL) (key : Int) : (List_Find list key).2.items = list.items := by
  unfold List_Find
  cases List_Find_loop key list.items 0 <;> rfl

theorem List_Find_true_iff (list : DLL) (key : Int) :
    (List_Find list key).1 = true ↔ key ∈ list.items.map Entry.id := by
  rw [List_Find_true_iff_exists list key]
  simp only [List.mem_map]

/-- What `insert` does: the vertex data are kept, the vertex has a list
afterwards, and the entry `(index, weight)` has been appended to its entries
unless an entry with the id `index` was there. -/
theorem insert_spec (v : Vertex) (index : Int) (weight : Weight) :
    ∃ list, insert v index weight = Except.ok { data := v.data, neighbors := some list } ∧
      list.items =
        if index ∈ v.ids then v.entries else v.entries ++ [{ id := index, weight := weight }] := by
  unfold insert Vertex.ids Vertex.entries
  cases hn : v.neighbors with
  | none =>
    simp [List_New, find_neighbor, List_Find, List_Find_loop, List_Push_back, new_node]
  | some l0 =>
    simp only [reduceCtorEq, if_false, hn, find_neighbor]
    by_cases hmem : index ∈ l0.items.map Entry.id
    · have ht := (List_Find_true_iff l0 index).2 hmem
      simp only [ht, Bool.true_eq_false, if_false, hmem, if_true]
      exact ⟨_, rfl, List_Find_items l0 index⟩
    · have hf : (List_Find l0 index).1 = false := by
        cases hb : (List_Find l0 index).1 with
        | false => rfl
        | true => exact absurd ((List_Find_true_iff l0 index).1 hb) hmem
      obtain ⟨l1, hp, hi⟩ := List_Push_back_ok (List_Find l0 index).2 index weight
      simp only [hf, if_true, hp, hmem, if_false]
      exact ⟨l1, rfl, by rw [hi, List_Find_items]⟩

theorem insert_at_spec (g : Graph) (k : Nat) (index : Int) (weight : Weight) (v : Vertex)
    (hv : g.vertices[k]? = some v) :
    ∃ list,
      insert_at g (k : Int) index weight =
        Except.ok { g with vertices := g.vertices.set k { data := v.data, neighbors := some list } } ∧
      list.items =
        if index ∈ v.ids then v.entries else v.entries ++ [{ id := index, weight := weight }] := by
  obtain ⟨list, hins, hitems⟩ := insert_spec v index weight
  refine ⟨list, ?_, hitems⟩
  unfold insert_at
  rw [slot_natCast, hv]
  simp only [hins, Int.toNat_ofNat]

theorem find_loop_result (vertices : List Vertex) (key : Int) :
    ∀ n i r, find_loop vertices key n i = Except.ok r →
      r = -1 ∨ ∃ k : Nat, r = (k : Int) ∧ ∃ v, vertices[k]? = some v ∧ v.data.id = key := by
  intro n
  induction n with
  | zero =>
    intro i r h
    simp only [find_loop, Except.ok.injEq] at h
    exact Or.inl h.symm
  | succ n ih =>
    intro i r h
    rw [find_loop, slot_natCast] at h
    cases hv : vertices[i]? with
    | none => rw [hv] at h; cases h
    | some v =>
      rw [hv] at h
      by_cases hk : v.data.id = key
      · simp only [hk, if_true, Except.ok.injEq] at h
        exact Or.inr ⟨i, h.symm, v, hv, hk⟩
      · simp only [hk, if_false] at h
        exact ih (i + 1) r h

theorem find_result (vertices : List Vertex) (size key r : Int)
    (h : find vertices size key = Except.ok r) :
    r = -1 ∨ ∃ k : Nat, r = (k : Int) ∧ ∃ v, vertices[k]? = some v ∧ v.data.id = key :=
  find_loop_result vertices key size.toNat 0 r h

/-- The result of `find` depends on the ids stored in the array only. -/
theorem find_loop_congr (vertices vertices1 : List Vertex) (key : Int)
    (h : ∀ j : Nat, (vertices1[j]?).map (fun v : Vertex => v.data.id)
      = (vertices[j]?).map (fun v : Vertex => v.data.id)) :
    ∀ n i, find_loop vertices1 key n i = find_loop vertices key n i := by
  intro n
  induction n with
  | zero => intro i; rfl
  | succ n ih =>
    intro i
    rw [find_loop, find_loop, slot_natCast, slot_natCast]
    have hi := h i
    cases h1 : vertices1[i]? with
    | none =>
      rw [h1] at hi
      cases h0 : vertices[i]? with
      | none => rfl
      | some v0 => rw [h0] at hi; simp at hi
    | some v1 =>
      rw [h1] at hi
      cases h0 : vertices[i]? with
      | none => rw [h0] at hi; simp at hi
      | some v0 =>
        rw [h0] at hi
        simp only [Option.map_some', Option.some.injEq] at hi
        simp only [hi, ih (i + 1)]

theorem set_ids (vertices : List Vertex) (k : Nat) (v v1 : Vertex)
    (hv : vertices[k]? = some v) (hid : v1.data.id = v.data.id) :
    ∀ j : Nat, ((vertices.set k v1)[j]?).map (fun v : Vertex => v.data.id)
      = (vertices[j]?).map (fun v : Vertex => v.data.id) := by
  intro j
  rw [List.getElem?_set]
  by_cases hkj : k = j
  · subst hkj
    have hlt : k < vertices.length := by
      by_contra hge
      rw [List.getElem?_eq_none (by omega)] at hv
      cases hv
    simp only [if_true, hlt, hv, Option.map_some', hid]
  · simp only [hkj, if_false]

theorem find_set (vertices : List Vertex) (size key : Int) (k : Nat) (v v1 : Vertex)
    (hv : vertices[k]? = some v) (hid : v1.data.id = v.data.id) :
    find (vertices.set k v1) size key = find vertices size key :=
  find_loop_congr vertices (vertices.set k v1) key (set_ids vertices k v v1 hv hid) size.toNat 0

/-- The loop of `is_Neighbor_Of` entered with the cursor on position `i` (on
`NULL` when `i` is past the last node) and more tests left than nodes from `i`
on: it returns, with `true` iff one of the entries from position `i` on has
the id `dest_idx`; in particular it does not exhaust its bound. -/
theorem is_Neighbor_Of_loop_fuel (data : Data) (items : List Entry) (dest_idx : Int) :
    ∀ fuel i, i ≤ items.length → items.length - i < fuel →
      ∃ c, is_Neighbor_Of_loop dest_idx fuel
          { data := data,
            neighbors := some
              { items := items
                cursor := if i < items.length then Cursor.node i else Cursor.null } }
        = Except.ok (decide (dest_idx ∈ (items.drop i).map Entry.id),
            { data := data, neighbors := some { items := items, cursor := c } }) := by
  intro fuel
  induction fuel with
  | zero => intro i _ h; omega
  | succ fuel ih =>
    intro i hi hf
    by_cases hlt : i < items.length
    · have hmem : dest_idx ∈ (items.drop i).map Entry.id ↔
          (dest_idx = items[i].id ∨ dest_idx ∈ (items.drop (i + 1)).map Entry.id) := by
        rw [List.drop_eq_getElem_cons hlt, List.map_cons, List.mem_cons]
      rw [is_Neighbor_Of_loop]
      simp only [Vertex_End, Vertex_GetNeighborIndex, Vertex_Next, hlt, if_true, List_Cursor_end,
        List_Cursor_get, List_Cursor_next, List.getElem?_eq_getElem hlt]
      simp only [reduceCtorEq, decide_False]
      by_cases hk : items[i].id = dest_idx
      · refine ⟨Cursor.node i, ?_⟩
        have hd : decide (dest_idx ∈ (items.drop i).map Entry.id) = true := by
          rw [decide_eq_true_iff]
          exact hmem.2 (Or.inl hk.symm)
        simp only [hk, if_true, hd]
      · obtain ⟨c, hc⟩ := ih (i + 1) (by omega) (by omega)
        refine ⟨c, ?_⟩
        have hne : ¬ dest_idx = items[i].id := fun h => hk h.symm
        have hd : decide (dest_idx ∈ (items.drop i).map Entry.id)
            = decide (dest_idx ∈ (items.drop (i + 1)).map Entry.id) := by
          rw [decide_eq_decide, hmem]
          simp only [hne, false_or]
        by_cases hlt1 : i + 1 < items.length
        · simp only [hlt1, if_true] at hc
          simp only [hk, if_false, hlt1, if_true, hc, hd]
        · simp only [hlt1, if_false] at hc
          simp only [hk, if_false, hlt1, hc, hd]
    · have hin : i = items.length := by omega
      subst hin
      rw [is_Neighbor_Of_loop]
      refine ⟨Cursor.null, ?_⟩
      simp [Vertex_End, List_Cursor_end]

/-- What `is_Neighbor_Of` does once both keys are resolved to slots: a `NULL`
dereference when the vertex of `src` has no list, and otherwise the answer
whether its list has an entry with the slot of `dest` as id. -/
theorem is_Neighbor_Of_spec (g : Graph) (dest src : Int) (s d : Nat) (v : Vertex)
    (hlen : 0 < g.len)
    (hs : find g.vertices g.size src = Except.ok (s : Int))
    (hd : find g.vertices g.size dest = Except.ok (d : Int))
    (hv : g.vertices[s]? = some v) :
    (v.neighbors = none → is_Neighbor_Of g dest src = Except.error Fault.nullDeref) ∧
    (v.neighbors ≠ none →
      ∃ g1, is_Neighbor_Of g dest src = Except.ok (decide ((d : Int) ∈ v.ids), g1)) := by
  have hs1 : ¬ ((s : Int) = -1 ∨ (d : Int) = -1) := by omega
  unfold is_Neighbor_Of
  simp only [gt_iff_lt, hlen, if_true, hs, hd, hs1, if_false, slot_natCast, hv]
  constructor
  · intro hn
    simp only [Vertex_Start, hn]
  · intro hn
    cases hl : v.neighbors with
    | none => exact absurd hl hn
    | some list =>
      obtain ⟨c, hc⟩ := is_Neighbor_Of_loop_fuel v.data list.items (d : Int)
        (list.items.length + 1) 0 (Nat.zero_le _) (by omega)
      simp only [Vertex_Start, hl, List_Cursor_front_eq, Vertex.degree]
      simp only [List.drop_zero] at hc
      simp only [hc, Vertex.ids, Vertex.entries, hl]
      exact ⟨_, rfl⟩

/-! ## Lemmas on the edge insertion -/

theorem Graph_AddEdge_eq (g : Graph) (start finish : Int) :
    Graph_AddEdge g start finish = Graph_AddWeightedEdge g start finish 0 := rfl

/-- The state after `insert( &g->vertices[ k ], index, weight )`. -/
theorem insert_at_post (g : Graph) (k : Nat) (index : Int) (weight : Weight) (v : Vertex)
    (hv : g.vertices[k]? = some v) :
    ∃ g1 v1, insert_at g (k : Int) index weight = Except.ok g1 ∧
      g1.size = g.size ∧ g1.len = g.len ∧ g1.type = g.type ∧
      g1.vertices = g.vertices.set k v1 ∧
      g1.vertices[k]? = some v1 ∧ v1.neighbors ≠ none ∧ v1.data = v.data ∧
      v1.entries =
        if index ∈ v.ids then v.entries else v.entries ++ [{ id := index, weight := weight }] := by
  obtain ⟨list, h, hitems⟩ := insert_at_spec g k index weight v hv
  have hlt : k < g.vertices.length := by
    by_contra hge
    rw [List.getElem?_eq_none (by omega)] at hv
    cases hv
  refine ⟨_, { data := v.data, neighbors := some list }, h, rfl, rfl, rfl, rfl, ?_, ?_, rfl, ?_⟩
  · simp only [List.getElem?_set, if_true, hlt]
  · simp
  · simpa [Vertex.entries] using hitems

theorem insert_at_find (g g1 : Graph) (k : Nat) (v v1 : Vertex) (key : Int)
    (hv : g.vertices[k]? = some v) (hd : v1.data = v.data)
    (hsz : g1.size = g.size) (hvs : g1.vertices = g.vertices.set k v1) :
    find g1.vertices g1.size key = find g.vertices g.size key := by
  rw [hsz, hvs]
  exact find_set g.vertices g.size key k v v1 hv (by rw [hd])

theorem mem_ids_insert (v : Vertex) (index : Int) (weight : Weight) :
    index ∈ (if index ∈ v.ids then v.entries
      else v.entries ++ [({ id := index, weight := weight } : Entry)]).map Entry.id := by
  by_cases h : index ∈ v.ids
  · rw [if_pos h]
    exact h
  · rw [if_neg h]
    simp

/-- The steps taken by a call of `Graph_AddWeightedEdge` that returns `true`. -/
theorem Graph_AddWeightedEdge_true (g g2 : Graph) (start finish : Int) (peso : Weight)
    (h : Graph_AddWeightedEdge g start finish peso = Except.ok (true, g2)) :
    ∃ (s f : Nat) (g1 : Graph), 0 < g.len ∧
      find g.vertices g.size start = Except.ok (s : Int) ∧
      find g.vertices g.size finish = Except.ok (f : Int) ∧
      (∃ v, g.vertices[s]? = some v) ∧ (∃ v, g.vertices[f]? = some v) ∧
      insert_at g (s : Int) (f : Int) peso = Except.ok g1 ∧
      (g.type = eGraphType.UNDIRECTED → insert_at g1 (f : Int) (s : Int) peso = Except.ok g2) ∧
      (g.type = eGraphType.DIRECTED → g2 = g1) := by
  unfold Graph_AddWeightedEdge at h
  by_cases hlen : g.len > 0
  · simp only [hlen, if_true] at h
    cases hs : find g.vertices g.size start with
    | error e => rw [hs] at h; cases h
    | ok rs =>
      cases hf : find g.vertices g.size finish with
      | error e => rw [hs, hf] at h; cases h
      | ok rf =>
        rw [hs, hf] at h
        simp only at h
        by_cases hneg : rs = -1 ∨ rf = -1
        · simp only [hneg, if_true, Except.ok.injEq, Prod.mk.injEq, Bool.false_eq_true,
            false_and] at h
        · simp only [hneg, if_false] at h
          rcases find_result _ _ _ _ hs with h1 | ⟨s, hrs, vs, hvs, _⟩
          · exact absurd (Or.inl h1) hneg
          rcases find_result _ _ _ _ hf with h1 | ⟨f, hrf, vf, hvf, _⟩
          · exact absurd (Or.inr h1) hneg
          subst hrs hrf
          obtain ⟨g1, v1, hi1, _, _, ht1, _⟩ := insert_at_post g s (f : Int) peso vs hvs
          rw [hi1] at h
          simp only [ht1] at h
          refine ⟨s, f, g1, hlen, rfl, rfl, ⟨vs, hvs⟩, ⟨vf, hvf⟩, hi1, ?_, ?_⟩
          · intro hu
            simp only [hu, if_true] at h
            cases hi2 : insert_at g1 (f : Int) (s : Int) peso with
            | error e => rw [hi2] at h; cases h
            | ok g3 =>
              rw [hi2] at h
              simp only [Except.ok.injEq, Prod.mk.injEq, true_and] at h
              rw [h]
          · intro hdir
            simp only [hdir, reduceCtorEq, if_false, Except.ok.injEq, Prod.mk.injEq,
              true_and] at h
            exact h.symm
  · simp only [hlen, if_false] at h
    cases h

theorem getElem?_lt_length (vertices : List Vertex) (k : Nat) (v : Vertex)
    (hv : vertices[k]? = some v) : k < vertices.length := by
  by_contra hge
  rw [List.getElem?_eq_none (by omega)] at hv
  cases hv

/-- The state after a call of `Graph_AddWeightedEdge` that returned `true`:
both keys resolve as before the call, the vertex of `start` has a list with an
entry for the slot of `finish`, and in an undirected graph the vertex of
`finish` has a list with an entry for the slot of `start`. -/
theorem Graph_AddWeightedEdge_post (g g2 : Graph) (start finish : Int) (peso : Weight)
    (h : Graph_AddWeightedEdge g start finish peso = Except.ok (true, g2)) :
    ∃ s f : Nat, 0 < g2.len ∧ g2.type = g.type ∧
      find g.vertices g.size start = Except.ok (s : Int) ∧
      find g.vertices g.size finish = Except.ok (f : Int) ∧
      find g2.vertices g2.size start = Except.ok (s : Int) ∧
      find g2.vertices g2.size finish = Except.ok (f : Int) ∧
      (∃ v, g2.vertices[s]? = some v ∧ v.neighbors ≠ none ∧ (f : Int) ∈ v.ids) ∧
      (g.type = eGraphType.UNDIRECTED →
        ∃ v, g2.vertices[f]? = some v ∧ v.neighbors ≠ none ∧ (s : Int) ∈ v.ids) := by
  obtain ⟨s, f, g1, hlen, hs, hf, ⟨vs, hvs⟩, ⟨vf, hvf⟩, hi1, hund, hdir⟩ :=
    Graph_AddWeightedEdge_true g g2 start finish peso h
  obtain ⟨g1a, v1, hi1a, hsz1, hlen1, hty1, hvs1, hk1, hn1, hd1, he1⟩ :=
    insert_at_post g s (f : Int) peso vs hvs
  rw [hi1] at hi1a
  cases hi1a
  have hfind1 : ∀ key, find g1.vertices g1.size key = find g.vertices g.size key :=
    fun key => insert_at_find g g1 s vs v1 key hvs hd1 hsz1 hvs1
  have hmem1 : (f : Int) ∈ v1.ids := by
    unfold Vertex.ids
    rw [he1]
    exact mem_ids_insert vs (f : Int) peso
  have hcases : g.type = eGraphType.DIRECTED ∨ g.type = eGraphType.UNDIRECTED := by
    cases g.type
    · exact Or.inr rfl
    · exact Or.inl rfl
  rcases hcases with hty | hty
  · have h21 := hdir hty
    subst h21
    refine ⟨s, f, by omega, hty1, hs, hf, by rw [hfind1, hs], by rw [hfind1, hf],
      ⟨v1, hk1, hn1, hmem1⟩, ?_⟩
    intro hc
    rw [hty] at hc
    cases hc
  · have hi2 := hund hty
    have hslen := getElem?_lt_length _ _ _ hvs
    have hflen := getElem?_lt_length _ _ _ hvf
    have hf1lt : f < g1.vertices.length := by
      rw [hvs1, List.length_set]
      exact hflen
    have hf1 : ∃ vf1, g1.vertices[f]? = some vf1 :=
      ⟨g1.vertices[f], List.getElem?_eq_getElem hf1lt⟩
    obtain ⟨vf1, hvf1⟩ := hf1
    obtain ⟨g2a, v2, hi2a, hsz2, hlen2, hty2, hvs2, hk2, hn2, hd2, he2⟩ :=
      insert_at_post g1 f (s : Int) peso vf1 hvf1
    rw [hi2] at hi2a
    cases hi2a
    have hfind2 : ∀ key, find g2.vertices g2.size key = find g.vertices g.size key := by
      intro key
      rw [insert_at_find g1 g2 f vf1 v2 key hvf1 hd2 hsz2 hvs2, hfind1]
    have hmem2 : (s : Int) ∈ v2.ids := by
      unfold Vertex.ids
      rw [he2]
      exact mem_ids_insert vf1 (s : Int) peso
    refine ⟨s, f, by omega, by rw [hty2, hty1], hs, hf, by rw [hfind2, hs], by rw [hfind2, hf],
      ?_, fun _ => ⟨v2, hk2, hn2, hmem2⟩⟩
    by_cases hsf : s = f
    · subst hsf
      exact ⟨v2, hk2, hn2, hmem2⟩
    · refine ⟨v1, ?_, hn1, hmem1⟩
      rw [hvs2, List.getElem?_set, if_neg (fun h : f = s => hsf h.symm)]
      exact hk1

/-- After a call of `Graph_AddWeightedEdge` that returned `true`,
`is_Neighbor_Of( g, finish, start )` returns `true`; in an undirected graph so
does `is_Neighbor_Of( g, start, finish )`. -/
theorem is_Neighbor_Of_after_edge (g g2 : Graph) (start finish : Int) (peso : Weight)
    (h : Graph_AddWeightedEdge g start finish peso = Except.ok (true, g2)) :
    (∃ g3, is_Neighbor_Of g2 finish start = Except.ok (true, g3)) ∧
    (g.type = eGraphType.UNDIRECTED →
      ∃ g3, is_Neighbor_Of g2 start finish = Except.ok (true, g3)) := by
  obtain ⟨s, f, hlen, _, _, _, hs2, hf2, ⟨v, hv, hn, hmem⟩, hund⟩ :=
    Graph_AddWeightedEdge_post g g2 start finish peso h
  constructor
  · obtain ⟨g3, h3⟩ := (is_Neighbor_Of_spec g2 finish start s f v hlen hs2 hf2 hv).2 hn
    refine ⟨g3, ?_⟩
    rw [h3, decide_eq_true hmem]
  · intro hu
    obtain ⟨v1, hv1, hn1, hmem1⟩ := hund hu
    obtain ⟨g3, h3⟩ := (is_Neighbor_Of_spec g2 start finish f s v1 hlen hf2 hs2 hv1).2 hn1
    refine ⟨g3, ?_⟩
    rw [h3, decide_eq_true hmem1]

/-! ## The value and the effect of `is_Neighbor_Of` -/

theorem map_set_same {β : Type} (F : Vertex → β) (vertices : List Vertex) (k : Nat)
    (v v1 : Vertex) (hv : vertices[k]? = some v) (hF : F v1 = F v) :
    (vertices.set k v1).map F = vertices.map F := by
  apply List.ext_getElem?
  intro j
  simp only [List.getElem?_map, List.getElem?_set]
  by_cases hkj : k = j
  · subst hkj
    simp only [if_true, getElem?_lt_length vertices k v hv, hv, Option.map_some', hF]
  · simp only [hkj, if_false]

theorem slot_ok (vertices : List Vertex) (i : Int) (v : Vertex)
    (h : slot vertices i = Except.ok v) : 0 ≤ i ∧ vertices[i.toNat]? = some v := by
  unfold slot at h
  by_cases hneg : i < 0
  · simp only [hneg, if_true] at h
    cases h
  · simp only [hneg, if_false] at h
    cases hv : vertices[i.toNat]? with
    | none => rw [hv] at h; cases h
    | some v0 =>
      rw [hv] at h
      cases h
      exact ⟨by omega, rfl⟩

/-- The value returned by `is_Neighbor_Of`, on any graph. -/
theorem is_Neighbor_Of_value (g : Graph) (dest src : Int) :
    (is_Neighbor_Of g dest src).map Prod.fst =
      if g.len > 0 then
        match find g.vertices g.size src with
        | Except.error f => Except.error f
        | Except.ok src_idx =>
          match find g.vertices g.size dest with
          | Except.error f => Except.error f
          | Except.ok dest_idx =>
            if src_idx = -1 ∨ dest_idx = -1 then Except.ok false
            else
              match slot g.vertices src_idx with
              | Except.error f => Except.error f
              | Except.ok v =>
                match v.neighbors with
                | none => Except.error Fault.nullDeref
                | some list => Except.ok (decide (dest_idx ∈ list.items.map Entry.id))
      else Except.error Fault.assertion := by
  unfold is_Neighbor_Of
  by_cases hlen : g.len > 0
  · simp only [hlen, if_true]
    cases find g.vertices g.size src with
    | error f => rfl
    | ok rs =>
      cases find g.vertices g.size dest with
      | error f => rfl
      | ok rd =>
        simp only
        by_cases hneg : rs = -1 ∨ rd = -1
        · simp only [hneg, if_true]
          rfl
        · simp only [hneg, if_false]
          cases slot g.vertices rs with
          | error f => rfl
          | ok v =>
            simp only
            cases hn : v.neighbors with
            | none =>
              simp only [Vertex_Start, hn]
              rfl
            | some list =>
              obtain ⟨c, hc⟩ := is_Neighbor_Of_loop_fuel v.data list.items rd
                (list.items.length + 1) 0 (Nat.zero_le _) (by omega)
              simp only [List.drop_zero] at hc
              simp only [Vertex_Start, hn, List_Cursor_front_eq, Vertex.degree, hc]
              rfl
  · simp only [hlen, if_false]
    rfl

/-- A call of `is_Neighbor_Of` that returns moves at most cursors. -/
theorem is_Neighbor_Of_same (g g1 : Graph) (dest src : Int) (r : Bool)
    (h : is_Neighbor_Of g dest src = Except.ok (r, g1)) : SameUpToCursors g g1 := by
  unfold is_Neighbor_Of at h
  by_cases hlen : g.len > 0
  · simp only [hlen, if_true] at h
    cases hs : find g.vertices g.size src with
    | error f => rw [hs] at h; cases h
    | ok rs =>
      cases hd : find g.vertices g.size dest with
      | error f => rw [hs, hd] at h; cases h
      | ok rd =>
        rw [hs, hd] at h
        simp only at h
        by_cases hneg : rs = -1 ∨ rd = -1
        · simp only [hneg, if_true, Except.ok.injEq, Prod.mk.injEq] at h
          rw [← h.2]
          exact ⟨rfl, rfl, rfl, rfl, rfl⟩
        · simp only [hneg, if_false] at h
          cases hsl : slot g.vertices rs with
          | error f => rw [hsl] at h; cases h
          | ok v =>
            rw [hsl] at h
            simp only at h
            obtain ⟨_, hv⟩ := slot_ok _ _ _ hsl
            cases hn : v.neighbors with
            | none =>
              simp only [Vertex_Start, hn] at h
              cases h
            | some list =>
              obtain ⟨c, hc⟩ := is_Neighbor_Of_loop_fuel v.data list.items rd
                (list.items.length + 1) 0 (Nat.zero_le _) (by omega)
              simp only [Vertex_Start, hn, List_Cursor_front_eq, Vertex.degree, hc,
                Except.ok.injEq, Prod.mk.injEq] at h
              rw [← h.2]
              refine ⟨rfl, rfl, rfl, ?_, ?_⟩
              · exact map_set_same Vertex.data g.vertices rs.toNat v _ hv rfl
              · exact map_set_same (fun v => v.neighbors.map DLL.items) g.vertices rs.toNat v _ hv
                  (by simp only [hn, Option.map_some'])
  · simp only [hlen, if_false] at h
    cases h

theorem SameUpToCursors_getElem (g g1 : Graph) (h : SameUpToCursors g g1) (j : Nat) :
    (g1.vertices[j]? = none ∧ g.vertices[j]? = none) ∨
    (∃ v1 v, g1.vertices[j]? = some v1 ∧ g.vertices[j]? = some v ∧ v1.data = v.data ∧
      v1.neighbors.map DLL.items = v.neighbors.map DLL.items) := by
  obtain ⟨_, _, _, hdata, hitems⟩ := h
  have h1 := congrArg (fun l => l[j]?) hdata
  have h2 := congrArg (fun l => l[j]?) hitems
  simp only [List.getElem?_map] at h1 h2
  cases hv1 : g1.vertices[j]? with
  | none =>
    cases hv : g.vertices[j]? with
    | none => exact Or.inl ⟨rfl, rfl⟩
    | some v => rw [hv1, hv] at h1; simp at h1
  | some v1 =>
    cases hv : g.vertices[j]? with
    | none => rw [hv1, hv] at h1; simp at h1
    | some v =>
      rw [hv1, hv] at h1 h2
      simp only [Option.map_some', Option.some.injEq] at h1 h2
      exact Or.inr ⟨v1, v, rfl, rfl, h1, h2⟩

theorem SameUpToCursors_find (g g1 : Graph) (h : SameUpToCursors g g1) (key : Int) :
    find g1.vertices g1.size key = find g.vertices g.size key := by
  rw [h.1]
  apply find_loop_congr
  intro j
  rcases SameUpToCursors_getElem g g1 h j with ⟨h1, h0⟩ | ⟨v1, v, h1, h0, hd, _⟩
  · rw [h1, h0]
  · rw [h1, h0]
    simp only [Option.map_some', hd]

/-- The value returned by `is_Neighbor_Of` does not depend on the cursors. -/
theorem is_Neighbor_Of_congr (g g1 : Graph) (h : SameUpToCursors g g1) (dest src : Int) :
    (is_Neighbor_Of g1 dest src).map Prod.fst = (is_Neighbor_Of g dest src).map Prod.fst := by
  rw [is_Neighbor_Of_value, is_Neighbor_Of_value, SameUpToCursors_find g g1 h,
    SameUpToCursors_find g g1 h, h.2.1]
  by_cases hlen : g.len > 0
  · simp only [hlen, if_true]
    cases find g.vertices g.size src with
    | error f => rfl
    | ok rs =>
      cases find g.vertices g.size dest with
      | error f => rfl
      | ok rd =>
        simp only
        by_cases hneg : rs = -1 ∨ rd = -1
        · simp only [hneg, if_true]
        · simp only [hneg, if_false]
          unfold slot
          by_cases hlt : rs < 0
          · simp only [hlt, if_true]
          · simp only [hlt, if_false]
            rcases SameUpToCursors_getElem g g1 h rs.toNat with
              ⟨h1, h0⟩ | ⟨v1, v, h1, h0, _, hi⟩
            · rw [h1, h0]
            · rw [h1, h0]
              simp only
              cases hn1 : v1.neighbors with
              | none =>
                cases hn : v.neighbors with
                | none => rfl
                | some l => rw [hn1, hn] at hi; simp at hi
              | some l1 =>
                cases hn : v.neighbors with
                | none => rw [hn1, hn] at hi; simp at hi
                | some l =>
                  rw [hn1, hn] at hi
                  simp only [Option.map_some', Option.some.injEq] at hi
                  simp only [hi]
  · simp only [hlen, if_false]

/-! ## C5 -/

theorem ok_of_map_fst {α : Type} (x : Except Fault (Bool × α)) (r : Bool)
    (h : x.map Prod.fst = Except.ok r) : ∃ a, x = Except.ok (r, a) := by
  cases x with
  | error f => cases h
  | ok p =>
    obtain ⟨r1, a⟩ := p
    simp only [Except.map, Except.ok.injEq] at h
    exact ⟨a, by rw [h]⟩

/-- When `is_Neighbor_Of( g, d, s )` returns `true` on a graph, it also does on
the graph left by any call of `is_Neighbor_Of` that returned. -/
theorem is_Neighbor_Of_again (g g1 g2 : Graph) (d s d1 s1 : Int) (r : Bool)
    (h : is_Neighbor_Of g d s = Except.ok (true, g1))
    (h1 : is_Neighbor_Of g d1 s1 = Except.ok (r, g2)) :
    ∃ g3, is_Neighbor_Of g2 d s = Except.ok (true, g3) := by
  apply ok_of_map_fst
  rw [is_Neighbor_Of_congr g g2 (is_Neighbor_Of_same g g2 d1 s1 r h1), h]
  rfl

/-- C5: in an UNDIRECTED graph, when `Graph_AddWeightedEdge( g, a, b, w )` or
`Graph_AddEdge( g, a, b )` returns `true` (which needs `len > 0`), then on the
graph it leaves both `is_Neighbor_Of( g, b, a )` and `is_Neighbor_Of( g, a, b )`
return `true`, and each still does after the other has been called. -/
theorem C5_undirected_both_directions (g g2 : Graph) (a b : Int) (w : Weight)
    (hu : g.type = eGraphType.UNDIRECTED)
    (h : Graph_AddWeightedEdge g a b w = Except.ok (true, g2) ∨
      Graph_AddEdge g a b = Except.ok (true, g2)) :
    (∃ g3, is_Neighbor_Of g2 b a = Except.ok (true, g3) ∧
      ∃ g4, is_Neighbor_Of g3 a b = Except.ok (true, g4)) ∧
    (∃ g3, is_Neighbor_Of g2 a b = Except.ok (true, g3) ∧
      ∃ g4, is_Neighbor_Of g3 b a = Except.ok (true, g4)) := by
  have hw : ∃ w1, Graph_AddWeightedEdge g a b w1 = Except.ok (true, g2) := by
    rcases h with h | h
    · exact ⟨w, h⟩
    · exact ⟨0, h⟩
  obtain ⟨w1, h1⟩ := hw
  have hpost := is_Neighbor_Of_after_edge g g2 a b w1 h1
  obtain ⟨g3, h3⟩ := hpost.1
  obtain ⟨g4, h4⟩ := hpost.2 hu
  exact ⟨⟨g3, h3, is_Neighbor_Of_again g2 g4 g3 a b b a true h4 h3⟩,
    ⟨g4, h4, is_Neighbor_Of_again g2 g3 g4 b a a b true h3 h4⟩⟩

/-- C5 on the undirected graph `oneEdgeUndirected` and the edge between 100
and 300 with weight 5. -/
theorem C5_undirected_both_directions_witness :
    ∃ g2, Graph_AddWeightedEdge oneEdgeUndirected 100 300 5 = Except.ok (true, g2) ∧
      (∃ g3, is_Neighbor_Of g2 300 100 = Except.ok (true, g3) ∧
        ∃ g4, is_Neighbor_Of g3 100 300 = Except.ok (true, g4)) ∧
      (∃ g3, is_Neighbor_Of g2 100 300 = Except.ok (true, g3) ∧
        ∃ g4, is_Neighbor_Of g3 300 100 = Except.ok (true, g4)) :=
  ⟨_, rfl, C5_undirected_both_directions oneEdgeUndirected _ 100 300 5 rfl (Or.inl rfl)⟩

/-! ## C6 -/

/-- C6: in a DIRECTED graph, when adding the edge from `a` to `b` with
`Graph_AddWeightedEdge` or `Graph_AddEdge` returns `true`, then
`is_Neighbor_Of( g, b, a )` returns `true` on the graph it leaves; and this
does not extend to `is_Neighbor_Of( g, a, b )`: in the reachable directed graph
`oneEdge`, after adding only the edge from 100 to 200,
`is_Neighbor_Of( g, 100, 200 )` returns `false`, and in the reachable directed
graph `twoVertices`, which has no edge, after adding only the edge from 100 to
200, `is_Neighbor_Of( g, 100, 200 )` does not return `true` either. -/
theorem C6_directed_one_direction :
    (∀ (g g2 : Graph) (a b : Int) (w : Weight), g.type = eGraphType.DIRECTED →
      (Graph_AddWeightedEdge g a b w = Except.ok (true, g2) ∨
        Graph_AddEdge g a b = Except.ok (true, g2)) →
      ∃ g3, is_Neighbor_Of g2 b a = Except.ok (true, g3)) ∧
    (∃ g2 g3, Reachable oneEdge ∧ oneEdge.type = eGraphType.DIRECTED ∧
      Graph_AddEdge oneEdge 100 200 = Except.ok (true, g2) ∧
      is_Neighbor_Of g2 100 200 = Except.ok (false, g3)) ∧
    (∃ g2, Reachable twoVertices ∧ twoVertices.type = eGraphType.DIRECTED ∧
      Graph_AddEdge twoVertices 100 200 = Except.ok (true, g2) ∧
      ∀ g3, is_Neighbor_Of g2 100 200 ≠ Except.ok (true, g3)) := by
  have hr2 : Reachable twoVertices :=
    Reachable.addVertex _ ⟨200, noBytes, noBytes, noBytes, noBytes, 0⟩ _
      (Reachable.addVertex _ ⟨100, noBytes, noBytes, noBytes, noBytes, 0⟩ _
        (Reachable.new 3 eGraphType.DIRECTED _ rfl) rfl) rfl
  have hr3 : Reachable oneEdge :=
    Reachable.addEdge _ 200 300 true _
      (Reachable.addVertex _ ⟨300, noBytes, noBytes, noBytes, noBytes, 0⟩ _ hr2 rfl) rfl
  refine ⟨?_, ⟨_, _, hr3, rfl, rfl, rfl⟩, ⟨_, hr2, rfl, rfl, ?_⟩⟩
  · intro g g2 a b w _ h
    rcases h with h | h
    · exact (is_Neighbor_Of_after_edge g g2 a b w h).1
    · rw [Graph_AddEdge_eq] at h
      exact (is_Neighbor_Of_after_edge g g2 a b 0 h).1
  · intro g3 h3
    change Except.error Fault.nullDeref = Except.ok (true, g3) at h3
    cases h3

/-- C6 on the directed graph `oneEdge` and the edge from 100 to 300. -/
theorem C6_directed_one_direction_witness :
    ∃ g2, Graph_AddEdge oneEdge 100 300 = Except.ok (true, g2) ∧
      ∃ g3, is_Neighbor_Of g2 300 100 = Except.ok (true, g3) :=
  ⟨_, rfl, C6_directed_one_direction.1 oneEdge _ 100 300 0 rfl (Or.inr rfl)⟩

/-! ## Neighbour lists hold no id twice -/

theorem entries_of_items (v v1 : Vertex)
    (h : v1.neighbors.map DLL.items = v.neighbors.map DLL.items) : v1.entries = v.entries := by
  unfold Vertex.entries
  cases hn1 : v1.neighbors with
  | none =>
    cases hn : v.neighbors with
    | none => rfl
    | some l => rw [hn1, hn] at h; simp at h
  | some l1 =>
    cases hn : v.neighbors with
    | none => rw [hn1, hn] at h; simp at h
    | some l =>
      rw [hn1, hn] at h
      simpa using h

theorem nodup_set (vertices : List Vertex) (k : Nat) (v1 : Vertex)
    (h : ∀ v ∈ vertices, v.ids.Nodup) (h1 : v1.ids.Nodup) :
    ∀ v ∈ vertices.set k v1, v.ids.Nodup := by
  intro v hv
  rcases List.mem_or_eq_of_mem_set hv with hm | he
  · exact h v hm
  · rw [he]
    exact h1

theorem nodup_same (g g1 : Graph) (hs : SameUpToCursors g g1)
    (h : ∀ v ∈ g.vertices, v.ids.Nodup) : ∀ v ∈ g1.vertices, v.ids.Nodup := by
  intro v1 hv1
  obtain ⟨j, hj⟩ := List.mem_iff_getElem?.1 hv1
  rcases SameUpToCursors_getElem g g1 hs j with ⟨h1, _⟩ | ⟨v1a, v, h1, h0, _, hi⟩
  · rw [h1] at hj
    cases hj
  · rw [h1] at hj
    cases hj
    have hv : v ∈ g.vertices := List.mem_iff_getElem?.2 ⟨j, h0⟩
    unfold Vertex.ids
    rw [entries_of_items v _ hi]
    exact h v hv

theorem nodup_insert_at (g g1 : Graph) (at_idx index : Int) (weight : Weight)
    (hi : insert_at g at_idx index weight = Except.ok g1)
    (h : ∀ v ∈ g.vertices, v.ids.Nodup) : ∀ v ∈ g1.vertices, v.ids.Nodup := by
  have hsl : ∃ v, slot g.vertices at_idx = Except.ok v := by
    unfold insert_at at hi
    cases hs : slot g.vertices at_idx with
    | error f => rw [hs] at hi; cases hi
    | ok v => exact ⟨v, rfl⟩
  obtain ⟨v, hs⟩ := hsl
  obtain ⟨h0, hv⟩ := slot_ok _ _ _ hs
  obtain ⟨g1a, v1, hi1, _, _, _, hvs, _, _, _, he⟩ :=
    insert_at_post g at_idx.toNat index weight v hv
  rw [Int.toNat_of_nonneg h0, hi] at hi1
  cases hi1
  rw [hvs]
  apply nodup_set _ _ _ h
  have hvn : v.ids.Nodup := h v (List.mem_iff_getElem?.2 ⟨_, hv⟩)
  unfold Vertex.ids at hvn ⊢
  rw [he]
  by_cases hmem : index ∈ v.ids
  · rw [if_pos hmem]
    exact hvn
  · rw [if_neg hmem, List.map_append, List.map_cons, List.map_nil]
    rw [List.nodup_append]
    refine ⟨hvn, List.nodup_singleton _, ?_⟩
    intro x hx hx1
    rw [List.mem_singleton] at hx1
    rw [hx1] at hx
    exact hmem hx

theorem nodup_AddWeightedEdge (g g1 : Graph) (start finish : Int) (peso : Weight) (r : Bool)
    (hc : Graph_AddWeightedEdge g start finish peso = Except.ok (r, g1))
    (h : ∀ v ∈ g.vertices, v.ids.Nodup) : ∀ v ∈ g1.vertices, v.ids.Nodup := by
  unfold Graph_AddWeightedEdge at hc
  by_cases hlen : g.len > 0
  · simp only [hlen, if_true] at hc
    cases hs : find g.vertices g.size start with
    | error e => rw [hs] at hc; cases hc
    | ok rs =>
      cases hf : find g.vertices g.size finish with
      | error e => rw [hs, hf] at hc; cases hc
      | ok rf =>
        rw [hs, hf] at hc
        simp only at hc
        by_cases hneg : rs = -1 ∨ rf = -1
        · simp only [hneg, if_true, Except.ok.injEq, Prod.mk.injEq] at hc
          rw [← hc.2]
          exact h
        · simp only [hneg, if_false] at hc
          cases hi1 : insert_at g rs rf peso with
          | error e => rw [hi1] at hc; cases hc
          | ok ga =>
            rw [hi1] at hc
            simp only at hc
            have hna := nodup_insert_at g ga rs rf peso hi1 h
            by_cases hty : ga.type = eGraphType.UNDIRECTED
            · simp only [hty, if_true] at hc
              cases hi2 : insert_at ga rf rs peso with
              | error e => rw [hi2] at hc; cases hc
              | ok gb =>
                rw [hi2] at hc
                simp only [Except.ok.injEq, Prod.mk.injEq] at hc
                rw [← hc.2]
                exact nodup_insert_at ga gb rf rs peso hi2 hna
            · simp only [hty, if_false, Except.ok.injEq, Prod.mk.injEq] at hc
              rw [← hc.2]
              exact hna
  · simp only [hlen, if_false] at hc
    cases hc

theorem vertex_cursor_same (g : Graph) (i : Int) (v v1 : Vertex)
    (hg : Graph_GetVertexByIndex g i = Except.ok v)
    (hd : v1.data = v.data) (hi : v1.neighbors.map DLL.items = v.neighbors.map DLL.items) :
    SameUpToCursors g { g with vertices := g.vertices.set i.toNat v1 } := by
  unfold Graph_GetVertexByIndex at hg
  by_cases hr : 0 ≤ i ∧ i < g.len
  · simp only [hr, and_self, if_true] at hg
    obtain ⟨_, hv⟩ := slot_ok _ _ _ hg
    exact ⟨rfl, rfl, rfl, map_set_same Vertex.data g.vertices i.toNat v v1 hv hd,
      map_set_same (fun v => v.neighbors.map DLL.items) g.vertices i.toNat v v1 hv hi⟩
  · simp only [hr, if_false] at hg
    cases hg

theorem Vertex_Start_same (v v1 : Vertex) (h : Vertex_Start v = Except.ok v1) :
    v1.data = v.data ∧ v1.neighbors.map DLL.items = v.neighbors.map DLL.items := by
  unfold Vertex_Start at h
  cases hn : v.neighbors with
  | none => rw [hn] at h; cases h
  | some l =>
    rw [hn] at h
    cases h
    exact ⟨rfl, rfl⟩

theorem Vertex_Next_same (v v1 : Vertex) (h : Vertex_Next v = Except.ok v1) :
    v1.data = v.data ∧ v1.neighbors.map DLL.items = v.neighbors.map DLL.items := by
  unfold Vertex_Next at h
  cases hn : v.neighbors with
  | none => rw [hn] at h; cases h
  | some l =>
    rw [hn] at h
    simp only at h
    unfold List_Cursor_next at h
    cases hc : l.cursor with
    | null => rw [hc] at h; cases h
    | dangling => rw [hc] at h; cases h
    | node i =>
      rw [hc] at h
      simp only at h
      by_cases h1 : i < l.items.length
      · simp only [h1, if_true] at h
        by_cases h2 : i + 1 < l.items.length
        · simp only [h2, if_true] at h
          cases h
          exact ⟨rfl, rfl⟩
        · simp only [h2, if_false] at h
          cases h
          exact ⟨rfl, rfl⟩
      · simp only [h1, if_false] at h
        cases h

/-- In a reachable graph no neighbour list holds two entries with the same id. -/
theorem Reachable_nodup (g : Graph) (hr : Reachable g) : ∀ v ∈ g.vertices, v.ids.Nodup := by
  induction hr with
  | new size type g h =>
    unfold Graph_New at h
    by_cases hs : size > 0
    · simp only [hs, if_true] at h
      cases h
      intro v hv
      rw [List.eq_of_mem_replicate hv]
      exact List.nodup_nil
    · simp only [hs, if_false] at h
      cases h
  | addVertex g a g1 _ h ih =>
    unfold Graph_AddVertex at h
    by_cases hlt : g.len < g.size
    · simp only [hlt, if_true] at h
      cases hs : slot g.vertices g.len with
      | error f => rw [hs] at h; cases h
      | ok v =>
        rw [hs] at h
        cases h
        exact nodup_set _ _ _ ih List.nodup_nil
    · simp only [hlt, if_false] at h
      cases h
  | addEdge g start finish r g1 _ h ih =>
    rw [Graph_AddEdge_eq] at h
    exact nodup_AddWeightedEdge g g1 start finish 0 r h ih
  | addWeightedEdge g start finish peso r g1 _ h ih =>
    exact nodup_AddWeightedEdge g g1 start finish peso r h ih
  | isNeighbor g dest src r g1 _ h ih =>
    exact nodup_same g g1 (is_Neighbor_Of_same g g1 dest src r h) ih
  | vertexStart g i v v1 _ hg hv ih =>
    obtain ⟨hd, hi⟩ := Vertex_Start_same v v1 hv
    exact nodup_same g _ (vertex_cursor_same g i v v1 hg hd hi) ih
  | vertexNext g i v v1 _ hg hv ih =>
    obtain ⟨hd, hi⟩ := Vertex_Next_same v v1 hv
    exact nodup_same g _ (vertex_cursor_same g i v v1 hg hd hi) ih

/-! ## C4 -/

theorem insert_at_present (g : Graph) (k : Nat) (index : Int) (weight : Weight) (v : Vertex)
    (hv : g.vertices[k]? = some v) (hmem : index ∈ v.ids) :
    ∃ g1, insert_at g (k : Int) index weight = Except.ok g1 ∧ g1.type = g.type ∧
      g1.vertices.map Vertex.entries = g.vertices.map Vertex.entries := by
  obtain ⟨g1, v1, hi, _, _, hty, hvs, _, _, _, he⟩ := insert_at_post g k index weight v hv
  refine ⟨g1, hi, hty, ?_⟩
  rw [hvs]
  apply map_set_same Vertex.entries g.vertices k v v1 hv
  rw [he, if_pos hmem]

theorem map_entries_getElem (vertices vertices1 : List Vertex)
    (h : vertices1.map Vertex.entries = vertices.map Vertex.entries) (j : Nat) (v : Vertex)
    (hv : vertices[j]? = some v) : ∃ v1, vertices1[j]? = some v1 ∧ v1.entries = v.entries := by
  have hj := congrArg (fun l => l[j]?) h
  simp only [List.getElem?_map, hv, Option.map_some'] at hj
  cases hv1 : vertices1[j]? with
  | none => rw [hv1] at hj; simp at hj
  | some v1 =>
    rw [hv1] at hj
    simp only [Option.map_some', Option.some.injEq] at hj
    exact ⟨v1, rfl, hj⟩

/-- A call of `Graph_AddWeightedEdge` for an edge whose entries are there
returns `true` and changes the entries of no list. -/
theorem Graph_AddWeightedEdge_present (g : Graph) (start finish : Int) (peso : Weight)
    (s f : Nat) (v : Vertex) (hlen : 0 < g.len)
    (hs : find g.vertices g.size start = Except.ok (s : Int))
    (hf : find g.vertices g.size finish = Except.ok (f : Int))
    (hv : g.vertices[s]? = some v) (hmem : (f : Int) ∈ v.ids)
    (hund : g.type = eGraphType.UNDIRECTED →
      ∃ vf, g.vertices[f]? = some vf ∧ (s : Int) ∈ vf.ids) :
    ∃ g2, Graph_AddWeightedEdge g start finish peso = Except.ok (true, g2) ∧
      g2.vertices.map Vertex.entries = g.vertices.map Vertex.entries := by
  have hneg : ¬ ((s : Int) = -1 ∨ (f : Int) = -1) := by omega
  obtain ⟨g1, hi1, hty1, he1⟩ := insert_at_present g s (f : Int) peso v hv hmem
  unfold Graph_AddWeightedEdge
  simp only [gt_iff_lt, hlen, if_true, hs, hf, hneg, if_false, hi1, hty1]
  by_cases hty : g.type = eGraphType.UNDIRECTED
  · obtain ⟨vf, hvf, hmemf⟩ := hund hty
    obtain ⟨vf1, hvf1, hef1⟩ := map_entries_getElem g.vertices g1.vertices he1 f vf hvf
    have hmemf1 : (s : Int) ∈ vf1.ids := by
      unfold Vertex.ids at hmemf ⊢
      rw [hef1]
      exact hmemf
    obtain ⟨g2, hi2, _, he2⟩ := insert_at_present g1 f (s : Int) peso vf1 hvf1 hmemf1
    simp only [hty, if_true, hi2]
    exact ⟨g2, rfl, he2.trans he1⟩
  · simp only [hty, if_false]
    exact ⟨g1, rfl, he1⟩

/-- C4: on a reachable graph, when `Graph_AddWeightedEdge` or `Graph_AddEdge`
returned `true` for the keys `(a, b)`, which resolve to the slots `s` and `f`,
a second call with the same keys (either function, any weight) returns `true`,
changes the entries of no neighbour list, and leaves in the list of slot `s`
exactly one entry whose id is `f`. -/
theorem C4_second_edge_call_adds_nothing (g g1 : Graph) (a b : Int) (w w2 : Weight)
    (hr : Reachable g)
    (h : Graph_AddWeightedEdge g a b w = Except.ok (true, g1) ∨
      Graph_AddEdge g a b = Except.ok (true, g1)) :
    ∃ s f : Nat,
      find g.vertices g.size a = Except.ok (s : Int) ∧
      find g.vertices g.size b = Except.ok (f : Int) ∧
      (∃ g2 v, Graph_AddWeightedEdge g1 a b w2 = Except.ok (true, g2) ∧
        g2.vertices.map Vertex.entries = g1.vertices.map Vertex.entries ∧
        g2.vertices[s]? = some v ∧ v.ids.count (f : Int) = 1) ∧
      (∃ g2 v, Graph_AddEdge g1 a b = Except.ok (true, g2) ∧
        g2.vertices.map Vertex.entries = g1.vertices.map Vertex.entries ∧
        g2.vertices[s]? = some v ∧ v.ids.count (f : Int) = 1) := by
  have hw : ∃ w1, Graph_AddWeightedEdge g a b w1 = Except.ok (true, g1) := by
    rcases h with h | h
    · exact ⟨w, h⟩
    · exact ⟨0, h⟩
  obtain ⟨w1, h1⟩ := hw
  have hr1 : Reachable g1 := Reachable.addWeightedEdge g a b w1 true g1 hr h1
  have hnd := Reachable_nodup g1 hr1
  obtain ⟨s, f, hlen1, hty, hs, hf, hs1, hf1, ⟨v, hv, _, hmem⟩, hund⟩ :=
    Graph_AddWeightedEdge_post g g1 a b w1 h1
  have hund1 : g1.type = eGraphType.UNDIRECTED →
      ∃ vf, g1.vertices[f]? = some vf ∧ (s : Int) ∈ vf.ids := by
    intro hu
    obtain ⟨vf, hvf, _, hmf⟩ := hund (hty ▸ hu)
    exact ⟨vf, hvf, hmf⟩
  have hcount : v.ids.count (f : Int) = 1 :=
    List.count_eq_one_of_mem (hnd v (List.mem_iff_getElem?.2 ⟨s, hv⟩)) hmem
  have hsecond : ∀ w3, ∃ g2 v2, Graph_AddWeightedEdge g1 a b w3 = Except.ok (true, g2) ∧
      g2.vertices.map Vertex.entries = g1.vertices.map Vertex.entries ∧
      g2.vertices[s]? = some v2 ∧ v2.ids.count (f : Int) = 1 := by
    intro w3
    obtain ⟨g2, h2, he2⟩ :=
      Graph_AddWeightedEdge_present g1 a b w3 s f v hlen1 hs1 hf1 hv hmem hund1
    obtain ⟨v2, hv2, hev2⟩ := map_entries_getElem g1.vertices g2.vertices he2 s v hv
    refine ⟨g2, v2, h2, he2, hv2, ?_⟩
    unfold Vertex.ids at hcount ⊢
    rw [hev2]
    exact hcount
  exact ⟨s, f, hs, hf, hsecond w2, hsecond 0⟩

/-- C4 on the graph of the end-to-end scenario before its edge (`twoVertices`)
and the keys (100, 200). -/
theorem C4_second_edge_call_adds_nothing_witness :
    ∃ g1, Reachable twoVertices ∧
      Graph_AddWeightedEdge twoVertices 100 200 9 = Except.ok (true, g1) ∧
      ∃ s f : Nat,
        find twoVertices.vertices twoVertices.size 100 = Except.ok (s : Int) ∧
        find twoVertices.vertices twoVertices.size 200 = Except.ok (f : Int) ∧
        (∃ g2 v, Graph_AddWeightedEdge g1 100 200 4 = Except.ok (true, g2) ∧
          g2.vertices.map Vertex.entries = g1.vertices.map Vertex.entries ∧
          g2.vertices[s]? = some v ∧ v.ids.count (f : Int) = 1) ∧
        (∃ g2 v, Graph_AddEdge g1 100 200 = Except.ok (true, g2) ∧
          g2.vertices.map Vertex.entries = g1.vertices.map Vertex.entries ∧
          g2.vertices[s]? = some v ∧ v.ids.count (f : Int) = 1) :=
  have hr : Reachable twoVertices :=
    Reachable.addVertex _ ⟨200, noBytes, noBytes, noBytes, noBytes, 0⟩ _
      (Reachable.addVertex _ ⟨100, noBytes, noBytes, noBytes, noBytes, 0⟩ _
        (Reachable.new 3 eGraphType.DIRECTED _ rfl) rfl) rfl
  ⟨_, hr, rfl, C4_second_edge_call_adds_nothing twoVertices _ 100 200 9 4 hr (Or.inl rfl)⟩

/-! ## C7 -/

/-- C7, evaluated on the end-to-end scenario `endToEnd` of the claim
(`Graph_New( 3, DIRECTED )`, vertices 100 and 200, weighted edge from 100 to
200 with weight 9.0): `Graph_GetLen` is 2, the traversal of the list of slot 0
reads exactly the entry (1, 9.0) and `is_Neighbor_Of( g, 200, 100 )` returns
`true`, as claimed; but `is_Neighbor_Of( g, 100, 200 )` does not return `false`:
the vertex 200 has no neighbour list and `Vertex_Start` dereferences `NULL`. -/
theorem C7_is_Neighbor_Of_without_list :
    ∃ g, endToEnd = Except.ok g ∧ Reachable g ∧ Graph_GetLen g = 2 ∧
      (∃ v list final, Graph_GetVertexByIndex g 0 = Except.ok v ∧ v.neighbors = some list ∧
        traverse 2 list = Except.ok (some ([{ id := 1, weight := 9 }], final))) ∧
      (∃ g1, is_Neighbor_Of g 200 100 = Except.ok (true, g1)) ∧
      is_Neighbor_Of g 100 200 = Except.error Fault.nullDeref := by
  refine ⟨_, rfl, ?_, rfl, ⟨_, _, _, rfl, rfl, rfl⟩, ⟨_, rfl⟩, rfl⟩
  exact Reachable.addWeightedEdge _ 100 200 9 true _
    (Reachable.addVertex _ ⟨200, noBytes, noBytes, noBytes, noBytes, -5⟩ _
      (Reachable.addVertex _ ⟨100, noBytes, noBytes, noBytes, noBytes, -6⟩ _
        (Reachable.new 3 eGraphType.DIRECTED _ rfl) rfl) rfl) rfl

/-! ## C8 -/

/-- C8, evaluated on `oneVertex` (`Graph_New( 3, DIRECTED )` and the vertex
100): no vertex in the slots `[0, len)` has the id 0, `Graph_getIndexByValue`
returns -1 for it, and yet `Graph_AddEdge( g, 100, 0 )` returns `true` and
appends an entry for slot 1, an unused slot whose zeroed id `find` matches
because it scans all `size` slots. -/
theorem C8_edge_to_unused_slot :
    ∃ g g1 v1, oneVertex = Except.ok g ∧ Reachable g ∧ 0 < g.len ∧
      NoMatch g.vertices 0 g.len.toNat ∧
      Graph_getIndexByValue g 0 = Except.ok (-1) ∧
      find g.vertices g.size 0 = Except.ok 1 ∧
      Graph_AddEdge g 100 0 = Except.ok (true, g1) ∧
      g1.vertices[0]? = some v1 ∧ v1.entries = [{ id := 1, weight := 0 }] := by
  refine ⟨_, _, _, rfl, ?_, by decide, ?_, rfl, rfl, rfl, rfl, rfl⟩
  · exact Reachable.addVertex _ ⟨100, noBytes, noBytes, noBytes, noBytes, -6⟩ _
      (Reachable.new 3 eGraphType.DIRECTED _ rfl) rfl
  · intro j v hj hv
    have hj0 : j = 0 := by
      have : (1 : Int).toNat = 1 := rfl
      change j < (1 : Int).toNat at hj
      omega
    subst hj0
    change some (Vertex.mk _ _) = some v at hv
    cases hv
    decide

/-! ## C11 -/

/-- C11: on a graph with `0 <= len < size` whose array holds its `size` slots,
`Graph_AddVertex( g, id, ..., utc )` returns; slot `len` then holds a vertex
with the id `id`, the utc offset `utc` and no neighbour list; `len` has grown by
exactly 1 and `Graph_GetLen` returns the old `len + 1`; `size`, `type`, the
number of slots and every other slot are as before. -/
theorem C11_Graph_AddVertex_frame (g : Graph) (id utc : Int)
    (iata country city name : Nat → Nat)
    (h0 : 0 ≤ g.len) (hlt : g.len < g.size) (hsz : g.size ≤ (g.vertices.length : Int)) :
    ∃ g1 v, Graph_AddVertex g id iata country city name utc = Except.ok g1 ∧
      g1.vertices[g.len.toNat]? = some v ∧
      v.data.id = id ∧ v.data.utc_time = utc ∧ v.neighbors = none ∧
      g1.len = g.len + 1 ∧ Graph_GetLen g1 = g.len + 1 ∧
      g1.size = g.size ∧ g1.type = g.type ∧ g1.vertices.length = g.vertices.length ∧
      ∀ j : Nat, j ≠ g.len.toNat → g1.vertices[j]? = g.vertices[j]? := by
  have hneg : ¬ g.len < 0 := by omega
  have hin : g.len.toNat < g.vertices.length := by omega
  unfold Graph_AddVertex slot
  simp only [hlt, if_true, hneg, if_false, List.getElem?_eq_getElem hin]
  refine ⟨_,
    { data :=
        copy_strings { g.vertices[g.len.toNat].data with id := id, utc_time := utc }
          iata country city name
      neighbors := none },
    rfl, ?_, rfl, rfl, rfl, rfl, rfl, rfl, rfl, ?_, ?_⟩
  · simp only [List.getElem?_set, if_true, hin]
  · simp
  · intro j hj
    simp only [List.getElem?_set, if_neg (fun h : g.len.toNat = j => hj h.symm)]

/-- C11 on the graph `twoVertices` (two vertices, capacity 3) and the vertex
300 with utc offset -4. -/
theorem C11_Graph_AddVertex_frame_witness :
    ∃ g1 v, Graph_AddVertex twoVertices 300 noBytes noBytes noBytes noBytes (-4) = Except.ok g1 ∧
      g1.vertices[twoVertices.len.toNat]? = some v ∧
      v.data.id = 300 ∧ v.data.utc_time = -4 ∧ v.neighbors = none ∧
      g1.len = twoVertices.len + 1 ∧ Graph_GetLen g1 = twoVertices.len + 1 ∧
      g1.size = twoVertices.size ∧ g1.type = twoVertices.type ∧
      g1.vertices.length = twoVertices.vertices.length ∧
      ∀ j : Nat, j ≠ twoVertices.len.toNat → g1.vertices[j]? = twoVertices.vertices[j]? :=
  C11_Graph_AddVertex_frame twoVertices 300 (-4) noBytes noBytes noBytes noBytes
    (by decide) (by decide) (by decide)

/-! ## C12 -/

/-- C12: `Graph_New( size, type )` stops at its assertion iff `size <= 0`;
otherwise it returns a graph with `Graph_GetLen = 0`, `Graph_GetSize = size`,
the given type, and `size` slots, each without neighbour list and with all its
data zero. -/
theorem C12_Graph_New (size : Int) (type : eGraphType) :
    (Graph_New size type = Except.error Fault.assertion ↔ size ≤ 0) ∧
    (0 < size →
      ∃ g, Graph_New size type = Except.ok g ∧ Graph_GetLen g = 0 ∧ Graph_GetSize g = size ∧
        g.type = type ∧ (g.vertices.length : Int) = size ∧
        ∀ v ∈ g.vertices, v.neighbors = none ∧ v.data.id = 0 ∧ v.data.utc_time = 0 ∧
          v.data.weight = 0 ∧
          (∀ b ∈ v.data.iata_code ++ v.data.country ++ v.data.city ++ v.data.name, b = 0) ∧
          v.data.iata_code.length = 4 ∧ v.data.country.length = 65 ∧
          v.data.city.length = 65 ∧ v.data.name.length = 65) := by
  constructor
  · unfold Graph_New
    by_cases h : size > 0
    · have hn : ¬ size ≤ 0 := by omega
      simp only [h, if_true, hn, iff_false]
      intro hc
      cases hc
    · have hn : size ≤ 0 := by omega
      simp only [h, if_false, hn]
  · intro h
    rw [Graph_New_ok size type h]
    refine ⟨_, rfl, rfl, rfl, rfl, ?_, ?_⟩
    · simp only [List.length_replicate]
      omega
    · intro v hv
      rw [List.eq_of_mem_replicate hv]
      refine ⟨rfl, rfl, rfl, rfl, ?_, rfl, rfl, rfl, rfl⟩
      intro b hb
      simp only [zeroVertex, List.mem_append, List.mem_replicate] at hb
      rcases hb with ((hb | hb) | hb) | hb <;> exact hb.2

/-- C12 at the size 3 and the type DIRECTED. -/
theorem C12_Graph_New_witness :
    ∃ g, Graph_New 3 eGraphType.DIRECTED = Except.ok g ∧ Graph_GetLen g = 0 ∧
      Graph_GetSize g = 3 ∧ g.type = eGraphType.DIRECTED ∧ (g.vertices.length : Int) = 3 ∧
      ∀ v ∈ g.vertices, v.neighbors = none ∧ v.data.id = 0 ∧ v.data.utc_time = 0 ∧
        v.data.weight = 0 ∧
        (∀ b ∈ v.data.iata_code ++ v.data.country ++ v.data.city ++ v.data.name, b = 0) ∧
        v.data.iata_code.length = 4 ∧ v.data.country.length = 65 ∧
        v.data.city.length = 65 ∧ v.data.name.length = 65 :=
  (C12_Graph_New 3 eGraphType.DIRECTED).2 (by decide)

/-! ## C13 -/

/-- C13: `Graph_GetVertexByIndex` and `Graph_GetDataByIndex` stop at their
assertion iff the index is not in `[0, len)`; on a graph whose slots `[0, len)`
lie in its array and for an index in `[0, len)` they return the vertex stored
in that slot and its id.  Both only read the graph. -/
theorem C13_get_by_index (g : Graph) (vertex_idx : Int) :
    (Graph_GetVertexByIndex g vertex_idx = Except.error Fault.assertion
      ↔ ¬ (0 ≤ vertex_idx ∧ vertex_idx < g.len)) ∧
    (Graph_GetDataByIndex g vertex_idx = Except.error Fault.assertion
      ↔ ¬ (0 ≤ vertex_idx ∧ vertex_idx < g.len)) ∧
    (g.len ≤ (g.vertices.length : Int) → 0 ≤ vertex_idx → vertex_idx < g.len →
      ∃ v, g.vertices[vertex_idx.toNat]? = some v ∧
        Graph_GetVertexByIndex g vertex_idx = Except.ok v ∧
        Graph_GetDataByIndex g vertex_idx = Except.ok v.data.id) := by
  unfold Graph_GetVertexByIndex Graph_GetDataByIndex slot
  by_cases hr : 0 ≤ vertex_idx ∧ vertex_idx < g.len
  · have hneg : ¬ vertex_idx < 0 := by omega
    simp only [hr, and_self, if_true, hneg, if_false, not_true_eq_false, iff_false]
    refine ⟨?_, ?_, ?_⟩
    · cases g.vertices[vertex_idx.toNat]? <;> simp
    · cases g.vertices[vertex_idx.toNat]? <;> simp
    · intro hlen _ _
      have hin : vertex_idx.toNat < g.vertices.length := by omega
      rw [List.getElem?_eq_getElem hin]
      exact ⟨_, rfl, rfl, rfl⟩
  · simp only [hr, if_false, not_false_eq_true, iff_true, true_and]
    intro _ h1 h2
    exact absurd ⟨h1, h2⟩ hr

/-- C13 on the graph `twoVertices` and the index 1. -/
theorem C13_get_by_index_witness :
    ∃ v, twoVertices.vertices[(1 : Int).toNat]? = some v ∧
      Graph_GetVertexByIndex twoVertices 1 = Except.ok v ∧
      Graph_GetDataByIndex twoVertices 1 = Except.ok v.data.id :=
  (C13_get_by_index twoVertices 1).2.2 (by decide) (by decide) (by decide)

/-! ## C14 -/

/-- C14: when the cursor is on the node at position `i`, `List_Cursor_next`
returns, the entries are untouched, the cursor is on the node at position
`i + 1`, or `NULL` when `i` was the last position, and the value returned is
`true` iff the new cursor is not `NULL`, that is the negation of what
`List_Cursor_end` then returns; when the cursor is `NULL`, `List_Cursor_next`
dereferences it and does not return. -/
theorem C14_List_Cursor_next (list : DLL) :
    (∀ i, list.cursor = Cursor.node i → i < list.items.length →
      ∃ r list1, List_Cursor_next list = Except.ok (r, list1) ∧
        list1.items = list.items ∧
        list1.cursor = (if i + 1 < list.items.length then Cursor.node (i + 1) else Cursor.null) ∧
        (r = true ↔ list1.cursor ≠ Cursor.null) ∧
        r = !List_Cursor_end list1) ∧
    (list.cursor = Cursor.null → List_Cursor_next list = Except.error Fault.nullDeref) := by
  constructor
  · intro i hc hi
    unfold List_Cursor_next
    rw [hc]
    simp only [hi, if_true]
    by_cases h1 : i + 1 < list.items.length
    · simp only [h1, if_true]
      exact ⟨true, _, rfl, rfl, rfl, by simp, by simp [List_Cursor_end]⟩
    · simp only [h1, if_false]
      exact ⟨false, _, rfl, rfl, rfl, by simp, by simp [List_Cursor_end]⟩
  · intro hc
    unfold List_Cursor_next
    rw [hc]

/-- C14 on the list (4, 1), (9, 2) with its cursor on the head. -/
theorem C14_List_Cursor_next_witness :
    ∃ r list1,
      List_Cursor_next { items := [⟨4, 1⟩, ⟨9, 2⟩], cursor := Cursor.node 0 } = Except.ok (r, list1) ∧
      list1.items = [⟨4, 1⟩, ⟨9, 2⟩] ∧
      list1.cursor = (if 0 + 1 < ([⟨4, 1⟩, ⟨9, 2⟩] : List Entry).length then Cursor.node (0 + 1)
        else Cursor.null) ∧
      (r = true ↔ list1.cursor ≠ Cursor.null) ∧
      r = !List_Cursor_end list1 :=
  (C14_List_Cursor_next { items := [⟨4, 1⟩, ⟨9, 2⟩], cursor := Cursor.node 0 }).1 0 rfl (by decide)

/-! ## The frame of the edge insertion -/

/-- The slot and the vertices involved in a call of `insert` on a slot that
returned. -/
theorem insert_at_ok (g g1 : Graph) (at_idx index : Int) (weight : Weight)
    (hi : insert_at g at_idx index weight = Except.ok g1) :
    ∃ v v1, 0 ≤ at_idx ∧ g.vertices[at_idx.toNat]? = some v ∧
      g1.size = g.size ∧ g1.len = g.len ∧ g1.type = g.type ∧
      g1.vertices = g.vertices.set at_idx.toNat v1 ∧
      v1.neighbors ≠ none ∧ v1.data = v.data ∧
      v1.entries =
        if index ∈ v.ids then v.entries else v.entries ++ [{ id := index, weight := weight }] := by
  have hsl : ∃ v, slot g.vertices at_idx = Except.ok v := by
    unfold insert_at at hi
    cases hs : slot g.vertices at_idx with
    | error f => rw [hs] at hi; cases hi
    | ok v => exact ⟨v, rfl⟩
  obtain ⟨v, hs⟩ := hsl
  obtain ⟨h0, hv⟩ := slot_ok _ _ _ hs
  obtain ⟨g1a, v1, hi1, hsz, hlen, hty, hvs, _, hn, hd, he⟩ :=
    insert_at_post g at_idx.toNat index weight v hv
  rw [Int.toNat_of_nonneg h0, hi] at hi1
  cases hi1
  exact ⟨v, v1, h0, hv, hsz, hlen, hty, hvs, hn, hd, he⟩

theorem Grows_refl (w : Weight) (g : Graph) : Grows w g g := by
  refine ⟨rfl, rfl, rfl, rfl, ?_⟩
  intro j v hv
  refine ⟨v, [], hv, rfl, by simp, ?_⟩
  intro e he
  cases he

theorem Grows_trans (w : Weight) (g g1 g2 : Graph) (h1 : Grows w g g1) (h2 : Grows w g1 g2) :
    Grows w g g2 := by
  obtain ⟨hs1, hl1, ht1, hn1, hv1⟩ := h1
  obtain ⟨hs2, hl2, ht2, hn2, hv2⟩ := h2
  refine ⟨hs2.trans hs1, hl2.trans hl1, ht2.trans ht1, hn2.trans hn1, ?_⟩
  intro j v hv
  obtain ⟨va, ta, hva, hda, hea, hwa⟩ := hv1 j v hv
  obtain ⟨vb, tb, hvb, hdb, heb, hwb⟩ := hv2 j va hva
  refine ⟨vb, ta ++ tb, hvb, hdb.trans hda, ?_, ?_⟩
  · rw [heb, hea, List.append_assoc]
  · intro e he
    rcases List.mem_append.1 he with h | h
    · exact hwa e h
    · exact hwb e h

theorem insert_at_grows (g g1 : Graph) (at_idx index : Int) (weight : Weight)
    (hi : insert_at g at_idx index weight = Except.ok g1) : Grows weight g g1 := by
  obtain ⟨v, v1, _, hv, hsz, hlen, hty, hvs, _, hd, he⟩ := insert_at_ok g g1 at_idx index weight hi
  have hk := getElem?_lt_length _ _ _ hv
  refine ⟨hsz, hlen, hty, by rw [hvs, List.length_set], ?_⟩
  intro j vj hvj
  rw [hvs, List.getElem?_set]
  by_cases hkj : at_idx.toNat = j
  · subst hkj
    rw [hv] at hvj
    cases hvj
    simp only [if_true, hk]
    by_cases hmem : index ∈ v.ids
    · rw [if_pos hmem] at he
      refine ⟨v1, [], rfl, hd, by rw [he, List.append_nil], ?_⟩
      intro e hme
      cases hme
    · rw [if_neg hmem] at he
      refine ⟨v1, [{ id := index, weight := weight }], rfl, hd, he, ?_⟩
      intro e hme
      rw [List.mem_singleton] at hme
      rw [hme]
  · simp only [hkj, if_false]
    refine ⟨vj, [], hvj, rfl, by rw [List.append_nil], ?_⟩
    intro e hme
    cases hme

/-- Any call of `Graph_AddWeightedEdge` that returns has at most appended
entries of weight `peso` to neighbour lists. -/
theorem Graph_AddWeightedEdge_grows (g g1 : Graph) (start finish : Int) (peso : Weight)
    (r : Bool) (hc : Graph_AddWeightedEdge g start finish peso = Except.ok (r, g1)) :
    Grows peso g g1 := by
  unfold Graph_AddWeightedEdge at hc
  by_cases hlen : g.len > 0
  · simp only [hlen, if_true] at hc
    cases hs : find g.vertices g.size start with
    | error e => rw [hs] at hc; cases hc
    | ok rs =>
      cases hf : find g.vertices g.size finish with
      | error e => rw [hs, hf] at hc; cases hc
      | ok rf =>
        rw [hs, hf] at hc
        simp only at hc
        by_cases hneg : rs = -1 ∨ rf = -1
        · simp only [hneg, if_true, Except.ok.injEq, Prod.mk.injEq] at hc
          rw [← hc.2]
          exact Grows_refl peso g
        · simp only [hneg, if_false] at hc
          cases hi1 : insert_at g rs rf peso with
          | error e => rw [hi1] at hc; cases hc
          | ok ga =>
            rw [hi1] at hc
            simp only at hc
            have hga := insert_at_grows g ga rs rf peso hi1
            by_cases hty : ga.type = eGraphType.UNDIRECTED
            · simp only [hty, if_true] at hc
              cases hi2 : insert_at ga rf rs peso with
              | error e => rw [hi2] at hc; cases hc
              | ok gb =>
                rw [hi2] at hc
                simp only [Except.ok.injEq, Prod.mk.injEq] at hc
                rw [← hc.2]
                exact Grows_trans peso g ga gb hga (insert_at_grows ga gb rf rs peso hi2)
            · simp only [hty, if_false, Except.ok.injEq, Prod.mk.injEq] at hc
              rw [← hc.2]
              exact hga
  · simp only [hlen, if_false] at hc
    cases hc

/-- On a non-empty graph whose array holds its `size` slots
`Graph_AddWeightedEdge` returns. -/
theorem Graph_AddWeightedEdge_returns (g : Graph) (start finish : Int) (peso : Weight)
    (hlen : 0 < g.len) (hsz : g.size.toNat ≤ g.vertices.length) :
    ∃ r g1, Graph_AddWeightedEdge g start finish peso = Except.ok (r, g1) := by
  obtain ⟨rs, hs, hcs⟩ := find_spec g.vertices g.size start hsz
  obtain ⟨rf, hf, hcf⟩ := find_spec g.vertices g.size finish hsz
  unfold Graph_AddWeightedEdge
  simp only [gt_iff_lt, hlen, if_true, hs, hf]
  by_cases hneg : rs = -1 ∨ rf = -1
  · simp only [hneg, if_true]
    exact ⟨false, g, rfl⟩
  · simp only [hneg, if_false]
    rcases hcs with ⟨h1, _⟩ | ⟨s, hrs, _, ⟨vs, hvs, _⟩, _⟩
    · exact absurd (Or.inl h1) hneg
    rcases hcf with ⟨h1, _⟩ | ⟨f, hrf, _, ⟨vf, hvf, _⟩, _⟩
    · exact absurd (Or.inr h1) hneg
    subst hrs hrf
    obtain ⟨ga, v1, hi1, _, _, _, hvs1, _⟩ := insert_at_post g s (f : Int) peso vs hvs
    rw [hi1]
    simp only
    by_cases hty : ga.type = eGraphType.UNDIRECTED
    · simp only [hty, if_true]
      have hflt : f < ga.vertices.length := by
        rw [hvs1, List.length_set]
        exact getElem?_lt_length _ _ _ hvf
      obtain ⟨gb, v2, hi2, _⟩ :=
        insert_at_post ga f (s : Int) peso ga.vertices[f] (List.getElem?_eq_getElem hflt)
      rw [hi2]
      exact ⟨true, gb, rfl⟩
    · simp only [hty, if_false]
      exact ⟨true, ga, rfl⟩

/-- What a call of `Graph_AddVertex` that returned has done. -/
theorem Graph_AddVertex_inv (g g1 : Graph) (id utc : Int) (iata country city name : Nat → Nat)
    (h : Graph_AddVertex g id iata country city name utc = Except.ok g1) :
    0 ≤ g.len ∧ g.len < g.size ∧ g1.len = g.len + 1 ∧ g1.size = g.size ∧ g1.type = g.type ∧
      ∃ v d, g.vertices[g.len.toNat]? = some v ∧ d.id = id ∧ d.utc_time = utc ∧
        g1.vertices = g.vertices.set g.len.toNat { data := d, neighbors := none } := by
  unfold Graph_AddVertex at h
  by_cases hlt : g.len < g.size
  · simp only [hlt, if_true] at h
    cases hs : slot g.vertices g.len with
    | error f => rw [hs] at h; cases h
    | ok v =>
      rw [hs] at h
      obtain ⟨h0, hv⟩ := slot_ok _ _ _ hs
      cases h
      exact ⟨h0, hlt, rfl, rfl, rfl, v, _, hv, rfl, rfl, rfl⟩
  · simp only [hlt, if_false] at h
    cases h

/-! ## C15 -/

/-- The invariant `0 <= len <= size` holds in every reachable graph. -/
theorem Reachable_LenInRange (g : Graph) (hr : Reachable g) : LenInRange g := by
  induction hr with
  | new size type g h =>
    unfold Graph_New at h
    by_cases hs : size > 0
    · simp only [hs, if_true] at h
      cases h
      exact ⟨le_refl _, by
        show (0 : Int) ≤ size
        omega⟩
    · simp only [hs, if_false] at h
      cases h
  | addVertex g a g1 _ h ih =>
    obtain ⟨h0, hlt, hl, hs, _, _⟩ := Graph_AddVertex_inv g g1 _ _ _ _ _ _ h
    exact ⟨by rw [hl]; omega, by rw [hl, hs]; omega⟩
  | addEdge g start finish r g1 _ h ih =>
    rw [Graph_AddEdge_eq] at h
    obtain ⟨hs, hl, _, _, _⟩ := Graph_AddWeightedEdge_grows g g1 start finish 0 r h
    exact ⟨by rw [hl]; exact ih.1, by rw [hl, hs]; exact ih.2⟩
  | addWeightedEdge g start finish peso r g1 _ h ih =>
    obtain ⟨hs, hl, _, _, _⟩ := Graph_AddWeightedEdge_grows g g1 start finish peso r h
    exact ⟨by rw [hl]; exact ih.1, by rw [hl, hs]; exact ih.2⟩
  | isNeighbor g dest src r g1 _ h ih =>
    obtain ⟨hs, hl, _, _, _⟩ := is_Neighbor_Of_same g g1 dest src r h
    exact ⟨by rw [hl]; exact ih.1, by rw [hl, hs]; exact ih.2⟩
  | vertexStart g i v v1 _ hg hv ih => exact ih
  | vertexNext g i v v1 _ hg hv ih => exact ih

/-- C15: `0 <= len <= size` holds for the result of `Graph_New` and is kept by
every call of `Graph_AddVertex`, `Graph_AddEdge`, `Graph_AddWeightedEdge` and
`is_Neighbor_Of` that returns, and none of these calls changes `size` or
`type`, which are those given to `Graph_New`; so the invariant holds in every
reachable graph. -/
theorem C15_len_in_range :
    (∀ (size : Int) (type : eGraphType) (g : Graph), Graph_New size type = Except.ok g →
      LenInRange g ∧ g.size = size ∧ g.type = type) ∧
    (∀ (g g1 : Graph) (id utc : Int) (iata country city name : Nat → Nat), LenInRange g →
      Graph_AddVertex g id iata country city name utc = Except.ok g1 →
      LenInRange g1 ∧ g1.size = g.size ∧ g1.type = g.type) ∧
    (∀ (g g1 : Graph) (start finish : Int) (r : Bool), LenInRange g →
      Graph_AddEdge g start finish = Except.ok (r, g1) →
      LenInRange g1 ∧ g1.size = g.size ∧ g1.type = g.type) ∧
    (∀ (g g1 : Graph) (start finish : Int) (peso : Weight) (r : Bool), LenInRange g →
      Graph_AddWeightedEdge g start finish peso = Except.ok (r, g1) →
      LenInRange g1 ∧ g1.size = g.size ∧ g1.type = g.type) ∧
    (∀ (g g1 : Graph) (dest src : Int) (r : Bool), LenInRange g →
      is_Neighbor_Of g dest src = Except.ok (r, g1) →
      LenInRange g1 ∧ g1.size = g.size ∧ g1.type = g.type) ∧
    (∀ g : Graph, Reachable g → LenInRange g) := by
  have hkeep : ∀ g g1 : Graph, LenInRange g → g1.size = g.size → g1.len = g.len →
      LenInRange g1 := by
    intro g g1 hin hs hl
    exact ⟨by rw [hl]; exact hin.1, by rw [hl, hs]; exact hin.2⟩
  refine ⟨?_, ?_, ?_, ?_, ?_, Reachable_LenInRange⟩
  · intro size type g h
    unfold Graph_New at h
    by_cases hs : size > 0
    · simp only [hs, if_true] at h
      cases h
      exact ⟨⟨le_refl _, by
        show (0 : Int) ≤ size
        omega⟩, rfl, rfl⟩
    · simp only [hs, if_false] at h
      cases h
  · intro g g1 id utc iata country city name hin h
    obtain ⟨h0, hlt, hl, hs, ht, _⟩ := Graph_AddVertex_inv g g1 _ _ _ _ _ _ h
    exact ⟨⟨by rw [hl]; omega, by rw [hl, hs]; omega⟩, hs, ht⟩
  · intro g g1 start finish r hin h
    rw [Graph_AddEdge_eq] at h
    obtain ⟨hs, hl, ht, _, _⟩ := Graph_AddWeightedEdge_grows g g1 start finish 0 r h
    exact ⟨hkeep g g1 hin hs hl, hs, ht⟩
  · intro g g1 start finish peso r hin h
    obtain ⟨hs, hl, ht, _, _⟩ := Graph_AddWeightedEdge_grows g g1 start finish peso r h
    exact ⟨hkeep g g1 hin hs hl, hs, ht⟩
  · intro g g1 dest src r hin h
    obtain ⟨hs, hl, ht, _, _⟩ := is_Neighbor_Of_same g g1 dest src r h
    exact ⟨hkeep g g1 hin hs hl, hs, ht⟩

/-- C15 on `Graph_New( 3, DIRECTED )`, on `Graph_AddVertex` and
`Graph_AddWeightedEdge` applied to `twoVertices`, and on `is_Neighbor_Of` applied
to `oneEdge`. -/
theorem C15_len_in_range_witness :
    (∃ g, Graph_New 3 eGraphType.DIRECTED = Except.ok g ∧
      LenInRange g ∧ g.size = 3 ∧ g.type = eGraphType.DIRECTED) ∧
    (∃ g1, Graph_AddVertex twoVertices 300 noBytes noBytes noBytes noBytes (-4) = Except.ok g1 ∧
      LenInRange g1 ∧ g1.size = twoVertices.size ∧ g1.type = twoVertices.type) ∧
    (∃ g1, Graph_AddWeightedEdge twoVertices 100 200 9 = Except.ok (true, g1) ∧
      LenInRange g1 ∧ g1.size = twoVertices.size ∧ g1.type = twoVertices.type) ∧
    (∃ g1, is_Neighbor_Of oneEdge 300 200 = Except.ok (true, g1) ∧
      LenInRange g1 ∧ g1.size = oneEdge.size ∧ g1.type = oneEdge.type) :=
  have h2 : LenInRange twoVertices := ⟨by decide, by decide⟩
  have h3 : LenInRange oneEdge := ⟨by decide, by decide⟩
  ⟨⟨_, rfl, C15_len_in_range.1 3 eGraphType.DIRECTED _ rfl⟩,
   ⟨_, rfl, C15_len_in_range.2.1 twoVertices _ 300 (-4) noBytes noBytes noBytes noBytes h2 rfl⟩,
   ⟨_, rfl, C15_len_in_range.2.2.2.1 twoVertices _ 100 200 9 true h2 rfl⟩,
   ⟨_, rfl, C15_len_in_range.2.2.2.2.1 oneEdge _ 300 200 true h3 rfl⟩⟩

/-! ## C19 -/

/-- C19: `Graph_AddEdge( g, start, finish )` and
`Graph_AddWeightedEdge( g, start, finish, 0.0 )` have the same outcome: the same
failure, or the same returned value together with the same graph; and whatever
a returning `Graph_AddEdge` has added to a neighbour list are entries of weight
0 at its tail. -/
theorem C19_AddEdge_is_weight_zero (g : Graph) (start finish : Int) :
    Graph_AddEdge g start finish = Graph_AddWeightedEdge g start finish 0 ∧
    (∀ (r : Bool) (g1 : Graph), Graph_AddEdge g start finish = Except.ok (r, g1) →
      ∀ (j : Nat) (v : Vertex), g.vertices[j]? = some v →
        ∃ v1 t, g1.vertices[j]? = some v1 ∧ v1.entries = v.entries ++ t ∧
          ∀ e ∈ t, e.weight = 0) := by
  refine ⟨rfl, ?_⟩
  intro r g1 h j v hv
  rw [Graph_AddEdge_eq] at h
  obtain ⟨_, _, _, _, hgrow⟩ := Graph_AddWeightedEdge_grows g g1 start finish 0 r h
  obtain ⟨v1, t, hv1, _, he, hw⟩ := hgrow j v hv
  exact ⟨v1, t, hv1, he, hw⟩

/-- C19 on the graph `twoVertices` and the keys (100, 200): slot 0 gets the
entry (1, 0). -/
theorem C19_AddEdge_is_weight_zero_witness :
    ∃ g1, Graph_AddEdge twoVertices 100 200 = Except.ok (true, g1) ∧
      Graph_AddWeightedEdge twoVertices 100 200 0 = Except.ok (true, g1) ∧
      ∃ v1 t, g1.vertices[0]? = some v1 ∧
        v1.entries = (vertexOf 100 none).entries ++ t ∧ ∀ e ∈ t, e.weight = 0 :=
  ⟨_, rfl, rfl,
    (C19_AddEdge_is_weight_zero twoVertices 100 200).2 true _ rfl 0 (vertexOf 100 none) rfl⟩

/-! ## C20 -/

/-- C20: a call of `Graph_AddWeightedEdge` or `Graph_AddEdge` that returns,
whatever it returns, leaves `len`, `size`, `type`, the number of slots and the
data of every vertex as they were, and the entries of every neighbour list
after the call are its entries before the call followed by what was appended
(no entry removed, reordered or re-weighted); and on a graph with `len > 0`
whose array holds its `size` slots both functions do return. -/
theorem C20_edge_frame (g : Graph) (start finish : Int) (peso : Weight) :
    (∀ (r : Bool) (g1 : Graph),
      (Graph_AddWeightedEdge g start finish peso = Except.ok (r, g1) ∨
        Graph_AddEdge g start finish = Except.ok (r, g1)) →
      g1.len = g.len ∧ g1.size = g.size ∧ g1.type = g.type ∧
      g1.vertices.length = g.vertices.length ∧
      ∀ (j : Nat) (v : Vertex), g.vertices[j]? = some v →
        ∃ v1 t, g1.vertices[j]? = some v1 ∧ v1.data = v.data ∧
          v1.entries = v.entries ++ t) ∧
    (0 < g.len → g.size.toNat ≤ g.vertices.length →
      (∃ r g1, Graph_AddWeightedEdge g start finish peso = Except.ok (r, g1)) ∧
      (∃ r g1, Graph_AddEdge g start finish = Except.ok (r, g1))) := by
  constructor
  · intro r g1 h
    have hw : ∃ w1, Graph_AddWeightedEdge g start finish w1 = Except.ok (r, g1) := by
      rcases h with h | h
      · exact ⟨peso, h⟩
      · exact ⟨0, h⟩
    obtain ⟨w1, h1⟩ := hw
    obtain ⟨hs, hl, ht, hn, hgrow⟩ := Graph_AddWeightedEdge_grows g g1 start finish w1 r h1
    refine ⟨hl, hs, ht, hn, ?_⟩
    intro j v hv
    obtain ⟨v1, t, hv1, hd, he, _⟩ := hgrow j v hv
    exact ⟨v1, t, hv1, hd, he⟩
  · intro hlen hsz
    exact ⟨Graph_AddWeightedEdge_returns g start finish peso hlen hsz,
      Graph_AddWeightedEdge_returns g start finish 0 hlen hsz⟩

/-- C20 on the graph `oneEdge` and the edge from 200 to 100 with weight 5:
the list of slot 1 grows from (2, 0) to (2, 0), (0, 5). -/
theorem C20_edge_frame_witness :
    ∃ g1, Graph_AddWeightedEdge oneEdge 200 100 5 = Except.ok (true, g1) ∧
      g1.len = oneEdge.len ∧ g1.size = oneEdge.size ∧ g1.type = oneEdge.type ∧
      g1.vertices.length = oneEdge.vertices.length ∧
      ∀ (j : Nat) (v : Vertex), oneEdge.vertices[j]? = some v →
        ∃ v1 t, g1.vertices[j]? = some v1 ∧ v1.data = v.data ∧
          v1.entries = v.entries ++ t :=
  ⟨_, rfl, (C20_edge_frame oneEdge 200 100 5).1 true _ (Or.inl rfl)⟩

/-! ## C16 -/

/-- Every list operation but `List_Pop_back` keeps the cursor consistent, and
`List_Pop_back` does when the cursor is not on the last of several nodes. -/
theorem WF_kept (list : DLL) (hwf : list.WF) :
    (∀ data weight list1, List_Push_back list data weight = Except.ok list1 → list1.WF) ∧
    (∀ key, (List_Find list key).2.WF) ∧
    (List_Cursor_front list).WF ∧
    (List_Cursor_back list).WF ∧
    (∀ r list1, List_Cursor_next list = Except.ok (r, list1) → list1.WF) ∧
    (∀ list1, List_Pop_back list = Except.ok list1 →
      (list.items.length = 1 ∨ list.cursor ≠ Cursor.node (list.items.length - 1)) → list1.WF) := by
  refine ⟨?_, ?_, ?_, ?_, ?_, ?_⟩
  · intro data weight list1 h
    unfold List_Push_back new_node at h
    by_cases he : list.items = []
    · simp only [he, ne_eq, not_true_eq_false, if_false, Except.ok.injEq] at h
      rw [← h]
      show 0 < 1
      omega
    · simp only [ne_eq, he, not_false_eq_true, if_true, Except.ok.injEq] at h
      rw [← h]
      unfold DLL.WF at hwf ⊢
      cases hc : list.cursor with
      | null => simp only
      | dangling => rw [hc] at hwf; exact hwf
      | node i =>
        rw [hc] at hwf
        simp only [List.length_append, List.length_singleton] at hwf ⊢
        omega
  · intro key
    unfold List_Find
    cases h : List_Find_loop key list.items 0 with
    | none => exact hwf
    | some i =>
      obtain ⟨j, e, hij, hje, _, _⟩ := List_Find_loop_some key list.items 0 i h
      have hlt : j < list.items.length := by
        by_contra hge
        rw [List.getElem?_eq_none (by omega)] at hje
        cases hje
      show i < list.items.length
      omega
  · unfold List_Cursor_front DLL.WF
    cases hi : list.items with
    | nil => simp
    | cons a t => simp
  · unfold List_Cursor_back DLL.WF
    cases hi : list.items with
    | nil => simp
    | cons a t => simp
  · intro r list1 h
    unfold List_Cursor_next at h
    cases hc : list.cursor with
    | null => rw [hc] at h; cases h
    | dangling => rw [hc] at h; cases h
    | node i =>
      rw [hc] at h
      simp only at h
      by_cases h1 : i < list.items.length
      · simp only [h1, if_true] at h
        by_cases h2 : i + 1 < list.items.length
        · simp only [h2, if_true, Except.ok.injEq, Prod.mk.injEq] at h
          rw [← h.2]
          exact h2
        · simp only [h2, if_false, Except.ok.injEq, Prod.mk.injEq] at h
          rw [← h.2]
          trivial
      · simp only [h1, if_false] at h
        cases h
  · intro list1 h hcur
    unfold List_Pop_back at h
    cases hi : list.items with
    | nil => rw [hi] at h; cases h
    | cons a t =>
      cases t with
      | nil =>
        rw [hi] at h
        cases h
        trivial
      | cons b t =>
        rw [hi] at h hcur
        simp only [Except.ok.injEq] at h
        simp only [List.length_cons] at hcur
        have hne : list.cursor ≠ Cursor.node (t.length + 1 + 1 - 1) := by
          rcases hcur with hc | hc
          · omega
          · exact hc
        rw [← h]
        unfold DLL.WF at hwf ⊢
        simp only [List.length_cons, if_neg hne, List.length_dropLast]
        cases hc : list.cursor with
        | null => trivial
        | dangling => rw [hc] at hwf; exact hwf
        | node i =>
          rw [hc] at hwf hne
          rw [hi] at hwf
          simp only [List.length_cons] at hwf
          have : i ≠ t.length + 1 + 1 - 1 := fun he => hne (by rw [he])
          show i < t.length + 1 + 1 - 1
          omega

/-- C16, evaluated on `poppedUnderCursor`: the list made by `List_New` and the
pushes of (1, 0.0) and (2, 0.0), with its cursor put on the last node by
`List_Cursor_back`, is reachable and its cursor is consistent; `List_Pop_back`
then frees that node and returns without assigning `cursor`; the list it leaves
is reachable, holds the one entry (1, 0.0), and its cursor is on the freed node:
the cursor is not consistent, and `List_Cursor_get` reads freed memory. -/
theorem C16_pop_back_under_cursor :
    ListReachable { items := [⟨1, 0⟩, ⟨2, 0⟩], cursor := Cursor.node 1 } ∧
    DLL.WF { items := [⟨1, 0⟩, ⟨2, 0⟩], cursor := Cursor.node 1 } ∧
    List_Pop_back { items := [⟨1, 0⟩, ⟨2, 0⟩], cursor := Cursor.node 1 }
      = Except.ok { items := [⟨1, 0⟩], cursor := Cursor.dangling } ∧
    poppedUnderCursor = Except.ok { items := [⟨1, 0⟩], cursor := Cursor.dangling } ∧
    ListReachable { items := [⟨1, 0⟩], cursor := Cursor.dangling } ∧
    ¬ DLL.WF { items := [⟨1, 0⟩], cursor := Cursor.dangling } ∧
    List_Cursor_get { items := [⟨1, 0⟩], cursor := Cursor.dangling }
      = Except.error Fault.dangling := by
  have hr : ListReachable { items := [⟨1, 0⟩, ⟨2, 0⟩], cursor := Cursor.node 1 } :=
    ListReachable.back _
      (ListReachable.push _ 2 0 _
        (ListReachable.push _ 1 0 _ (ListReachable.new _ rfl) rfl) rfl)
  refine ⟨hr, ?_, rfl, rfl, ListReachable.pop _ _ hr rfl, ?_, rfl⟩
  · show 1 < 2
    omega
  · intro h
    exact h

/-! ## C17 -/

/-- C17, evaluated on `keyZeroThenVertex`: `Graph_New( 3, UNDIRECTED )`, the
vertex 100, `Graph_AddEdge( g, 100, 0 )` and the vertex 200.  The key 0 is
matched by the zeroed id of the unused slot 1, so the edge call puts the entry
(1, 0.0) in the list of slot 0 and the entry (0, 0.0) in a list of slot 1;
`Graph_AddVertex` then writes the vertex 200 into slot 1 with a `NULL` list.
The graph left holds the entry (1, 0.0) in slot 0 and no entry in slot 1:
adjacency is not symmetric. -/
theorem C17_undirected_not_symmetric :
    ∃ g v0 v1, keyZeroThenVertex = Except.ok g ∧ Built g ∧
      g.type = eGraphType.UNDIRECTED ∧
      g.vertices[0]? = some v0 ∧ v0.entries = [{ id := 1, weight := 0 }] ∧
      g.vertices[1]? = some v1 ∧ v1.data.id = 200 ∧ v1.neighbors = none ∧
      ¬ Symmetric g := by
  refine ⟨_, _, _, rfl, ?_, rfl, rfl, rfl, rfl, rfl, rfl, ?_⟩
  · exact Built.addVertex _ ⟨200, noBytes, noBytes, noBytes, noBytes, -5⟩ _
      (Built.addEdge _ 100 0 true _
        (Built.addVertex _ ⟨100, noBytes, noBytes, noBytes, noBytes, -6⟩ _
          (Built.new 3 eGraphType.UNDIRECTED _ rfl) rfl) rfl) rfl
  · intro hsym
    have h := (hsym 0 1 0 _ _ rfl rfl).1 (List.mem_singleton.2 rfl)
    cases h

/-! ## C18 -/

/-- C18, evaluated on `keyZeroEdge`: `Graph_New( 3, UNDIRECTED )`, the vertex
100 and `Graph_AddEdge( g, 100, 0 )`.  `len` is 1; the list of slot 0 holds an
entry with the id 1, which is not below `len`, and slot 1, which is not below
`len`, owns a list (holding the entry (0, 0.0)). -/
theorem C18_entry_for_unused_slot :
    ∃ g v0 v1 list1, keyZeroEdge = Except.ok g ∧ Built g ∧ g.len = 1 ∧
      g.vertices[0]? = some v0 ∧ v0.entries = [{ id := 1, weight := 0 }] ∧
      g.vertices[1]? = some v1 ∧ v1.neighbors = some list1 ∧
      list1.items = [{ id := 0, weight := 0 }] ∧
      ¬ EntriesInRange g := by
  refine ⟨_, _, _, _, rfl, ?_, rfl, rfl, rfl, rfl, rfl, rfl, ?_⟩
  · exact Built.addEdge _ 100 0 true _
      (Built.addVertex _ ⟨100, noBytes, noBytes, noBytes, noBytes, -6⟩ _
        (Built.new 3 eGraphType.UNDIRECTED _ rfl) rfl) rfl
  · intro hin
    have h := (hin 0 _ rfl).1 { id := 1, weight := 0 } (List.mem_singleton.2 rfl)
    have h2 : ¬ ((1 : Int) < 1) := by decide
    exact h2 h.2

/-! ## Unused slots and the keys that `find` resolves to them -/

theorem Built_Reachable (g : Graph) (h : Built g) : Reachable g := by
  induction h with
  | new size type g h => exact Reachable.new size type g h
  | addVertex g a g1 _ h ih => exact Reachable.addVertex g a g1 ih h
  | addEdge g start finish r g1 _ h ih => exact Reachable.addEdge g start finish r g1 ih h
  | addWeightedEdge g start finish peso r g1 _ h ih =>
    exact Reachable.addWeightedEdge g start finish peso r g1 ih h

theorem BuiltProper_Built (g : Graph) (h : BuiltProper g) : Built g := by
  induction h with
  | new size type g h => exact Built.new size type g h
  | addVertex g a g1 _ h ih => exact Built.addVertex g a g1 ih h
  | addEdge g start finish r g1 _ _ _ h ih => exact Built.addEdge g start finish r g1 ih h
  | addWeightedEdge g start finish peso r g1 _ _ _ h ih =>
    exact Built.addWeightedEdge g start finish peso r g1 ih h

theorem zero_unused_of_data (g g1 : Graph) (hl : g1.len = g.len)
    (hd : g1.vertices.map Vertex.data = g.vertices.map Vertex.data)
    (h : ∀ (j : Nat) (v : Vertex), g.vertices[j]? = some v → g.len ≤ (j : Int) → v.data.id = 0) :
    ∀ (j : Nat) (v : Vertex), g1.vertices[j]? = some v → g1.len ≤ (j : Int) → v.data.id = 0 := by
  intro j v1 hv1 hj
  have hmap := congrArg (fun l => l[j]?) hd
  simp only [List.getElem?_map, hv1, Option.map_some'] at hmap
  cases hv : g.vertices[j]? with
  | none => rw [hv] at hmap; simp at hmap
  | some v =>
    rw [hv] at hmap
    simp only [Option.map_some', Option.some.injEq] at hmap
    rw [hmap]
    exact h j v hv (by rw [← hl]; exact hj)

theorem Grows_data (w : Weight) (g g1 : Graph) (h : Grows w g g1) :
    g1.vertices.map Vertex.data = g.vertices.map Vertex.data := by
  obtain ⟨_, _, _, hn, hgrow⟩ := h
  apply List.ext_getElem?
  intro j
  simp only [List.getElem?_map]
  cases hv : g.vertices[j]? with
  | none =>
    have hge : g.vertices.length ≤ j := by
      by_contra hlt
      rw [List.getElem?_eq_getElem (by omega)] at hv
      cases hv
    rw [List.getElem?_eq_none (by omega)]
  | some v =>
    obtain ⟨v1, t, hv1, hd, _, _⟩ := hgrow j v hv
    rw [hv1]
    simp only [Option.map_some', hd]

/-- In a reachable graph the slots from `len` on still hold the zero id that
`calloc` gave them. -/
theorem Reachable_zero_unused (g : Graph) (hr : Reachable g) :
    ∀ (j : Nat) (v : Vertex), g.vertices[j]? = some v → g.len ≤ (j : Int) → v.data.id = 0 := by
  induction hr with
  | new size type g h =>
    unfold Graph_New at h
    by_cases hs : size > 0
    · simp only [hs, if_true] at h
      cases h
      intro j v hv _
      rw [List.eq_of_mem_replicate (List.mem_iff_getElem?.2 ⟨j, hv⟩)]
      rfl
    · simp only [hs, if_false] at h
      cases h
  | addVertex g a g1 _ h ih =>
    obtain ⟨h0, _, hl, _, _, v0, d, _, _, _, hvs⟩ := Graph_AddVertex_inv g g1 _ _ _ _ _ _ h
    intro j v hv hj
    rw [hvs, List.getElem?_set] at hv
    have hne : ¬ g.len.toNat = j := by omega
    rw [if_neg hne] at hv
    exact ih j v hv (by omega)
  | addEdge g start finish r g1 _ h ih =>
    rw [Graph_AddEdge_eq] at h
    have hg := Graph_AddWeightedEdge_grows g g1 start finish 0 r h
    exact zero_unused_of_data g g1 hg.2.1 (Grows_data 0 g g1 hg) ih
  | addWeightedEdge g start finish peso r g1 _ h ih =>
    have hg := Graph_AddWeightedEdge_grows g g1 start finish peso r h
    exact zero_unused_of_data g g1 hg.2.1 (Grows_data peso g g1 hg) ih
  | isNeighbor g dest src r g1 _ h ih =>
    have hs := is_Neighbor_Of_same g g1 dest src r h
    exact zero_unused_of_data g g1 hs.2.1 hs.2.2.2.1 ih
  | vertexStart g i v v1 _ hg hv ih =>
    obtain ⟨hd, hi⟩ := Vertex_Start_same v v1 hv
    have hs := vertex_cursor_same g i v v1 hg hd hi
    exact zero_unused_of_data g _ hs.2.1 hs.2.2.2.1 ih
  | vertexNext g i v v1 _ hg hv ih =>
    obtain ⟨hd, hi⟩ := Vertex_Next_same v v1 hv
    have hs := vertex_cursor_same g i v v1 hg hd hi
    exact zero_unused_of_data g _ hs.2.1 hs.2.2.2.1 ih

/-- In a reachable graph `find` resolves a key other than 0 to -1 or to a slot
below `len`. -/
theorem nonzero_key_resolves (g : Graph) (hr : Reachable g) (key : Int) (hk : key ≠ 0) :
    ResolvesBelowLen g key := by
  intro r hf
  have hlen := (Reachable_LenInRange g hr).1
  rcases find_result _ _ _ _ hf with h1 | ⟨k, hrk, v, hv, hid⟩
  · omega
  · by_contra hge
    have h0 := Reachable_zero_unused g hr k v hv (by omega)
    rw [hid] at h0
    exact hk h0

/-! ## Entries in range and symmetry when no key resolves to an unused slot -/

theorem mem_ids_iff (v : Vertex) (k : Int) :
    k ∈ v.ids ↔ ∃ w0 : Weight, ({ id := k, weight := w0 } : Entry) ∈ v.entries := by
  unfold Vertex.ids
  rw [List.mem_map]
  constructor
  · rintro ⟨e, he, hk⟩
    refine ⟨e.weight, ?_⟩
    rw [← hk]
    exact he
  · rintro ⟨w0, he⟩
    exact ⟨_, he, rfl⟩

/-- The entries of every slot after `insert( &g->vertices[ k ], index, weight )`. -/
theorem insert_at_mem (g g1 : Graph) (k : Nat) (index : Int) (weight : Weight) (vk : Vertex)
    (hvk : g.vertices[k]? = some vk)
    (hi : insert_at g (k : Int) index weight = Except.ok g1) :
    ∀ (i : Nat) (vi1 : Vertex), g1.vertices[i]? = some vi1 →
      ∃ vi, g.vertices[i]? = some vi ∧
        (vi1.neighbors ≠ none → vi.neighbors ≠ none ∨ i = k) ∧
        ∀ e, e ∈ vi1.entries ↔
          (e ∈ vi.entries ∨ (i = k ∧ index ∉ vk.ids ∧ e = { id := index, weight := weight })) := by
  obtain ⟨g1a, v1, hi1, _, _, _, hvs, _, _, _, he⟩ := insert_at_post g k index weight vk hvk
  rw [hi] at hi1
  cases hi1
  have hk := getElem?_lt_length _ _ _ hvk
  intro i vi1 hvi1
  rw [hvs, List.getElem?_set] at hvi1
  by_cases hki : k = i
  · subst hki
    simp only [if_true, hk, Option.some.injEq] at hvi1
    subst hvi1
    refine ⟨vk, hvk, fun _ => Or.inr rfl, ?_⟩
    intro e
    rw [he]
    by_cases hmem : index ∈ vk.ids
    · rw [if_pos hmem]
      simp only [hmem, not_true_eq_false, false_and, and_false, or_false]
    · rw [if_neg hmem]
      simp only [List.mem_append, List.mem_singleton, hmem, not_false_eq_true, true_and]
  · rw [if_neg hki] at hvi1
    refine ⟨vi1, hvi1, fun h => Or.inl h, ?_⟩
    intro e
    have hik : ¬ i = k := fun h => hki h.symm
    simp only [hik, false_and, or_false]

theorem EntriesInRange_insert_at (g g1 : Graph) (k : Nat) (index : Int) (weight : Weight)
    (hi : insert_at g (k : Int) index weight = Except.ok g1)
    (hk : (k : Int) < g.len) (h0 : 0 ≤ index) (hlt : index < g.len)
    (hin : EntriesInRange g) : EntriesInRange g1 := by
  obtain ⟨vk, _, _, hvk, _, hlen, _, _⟩ := insert_at_ok g g1 (k : Int) index weight hi
  rw [Int.toNat_ofNat] at hvk
  have hmem := insert_at_mem g g1 k index weight vk hvk hi
  intro i vi1 hvi1
  obtain ⟨vi, hvi, hnb, hent⟩ := hmem i vi1 hvi1
  obtain ⟨hr, hown⟩ := hin i vi hvi
  rw [hlen]
  constructor
  · intro e he
    rcases (hent e).1 he with h | ⟨_, _, h⟩
    · exact hr e h
    · rw [h]
      exact ⟨h0, hlt⟩
  · intro hn
    rcases hnb hn with h | h
    · exact hown h
    · rw [h]
      exact hk

theorem entries_of_no_list (v : Vertex) (h : v.neighbors = none) : v.entries = [] := by
  unfold Vertex.entries
  rw [h]

theorem EntriesInRange_AddVertex (g g1 : Graph) (id utc : Int)
    (iata country city name : Nat → Nat)
    (h : Graph_AddVertex g id iata country city name utc = Except.ok g1)
    (hin : EntriesInRange g) :
    EntriesInRange g1 ∧ g1.vertices.map Vertex.entries = g.vertices.map Vertex.entries := by
  obtain ⟨h0, _, hl, _, _, v0, d, hv0, _, _, hvs⟩ := Graph_AddVertex_inv g g1 _ _ _ _ _ _ h
  have hnone : v0.neighbors = none := by
    by_contra hn
    have := (hin g.len.toNat v0 hv0).2 hn
    omega
  constructor
  · intro j v1 hv1
    rw [hvs, List.getElem?_set] at hv1
    rw [hl]
    by_cases hj : g.len.toNat = j
    · rw [if_pos hj, if_pos (getElem?_lt_length _ _ _ hv0)] at hv1
      cases hv1
      constructor
      · intro e he
        cases he
      · intro hn
        exact absurd rfl hn
    · rw [if_neg hj] at hv1
      obtain ⟨hr, hown⟩ := hin j v1 hv1
      constructor
      · intro e he
        have := hr e he
        omega
      · intro hn
        have := hown hn
        omega
  · rw [hvs]
    apply map_set_same Vertex.entries g.vertices g.len.toNat v0 _ hv0
    rw [entries_of_no_list v0 hnone]
    rfl

theorem Symmetric_of_entries (g g1 : Graph)
    (h : g1.vertices.map Vertex.entries = g.vertices.map Vertex.entries)
    (hsym : Symmetric g) : Symmetric g1 := by
  intro i j w vi1 vj1 hvi1 hvj1
  obtain ⟨vi, hvi, hei⟩ := map_entries_getElem g1.vertices g.vertices h.symm i vi1 hvi1
  obtain ⟨vj, hvj, hej⟩ := map_entries_getElem g1.vertices g.vertices h.symm j vj1 hvj1
  rw [← hei, ← hej]
  exact hsym i j w vi vj hvi hvj

theorem Graph_AddWeightedEdge_false (g g1 : Graph) (start finish : Int) (peso : Weight)
    (hc : Graph_AddWeightedEdge g start finish peso = Except.ok (false, g1)) : g1 = g := by
  unfold Graph_AddWeightedEdge at hc
  by_cases hlen : g.len > 0
  · simp only [hlen, if_true] at hc
    cases hs : find g.vertices g.size start with
    | error e => rw [hs] at hc; cases hc
    | ok rs =>
      cases hf : find g.vertices g.size finish with
      | error e => rw [hs, hf] at hc; cases hc
      | ok rf =>
        rw [hs, hf] at hc
        simp only at hc
        by_cases hneg : rs = -1 ∨ rf = -1
        · simp only [hneg, if_true, Except.ok.injEq, Prod.mk.injEq, true_and] at hc
          exact hc.symm
        · simp only [hneg, if_false] at hc
          cases hi1 : insert_at g rs rf peso with
          | error e => rw [hi1] at hc; cases hc
          | ok ga =>
            rw [hi1] at hc
            simp only at hc
            by_cases hty : ga.type = eGraphType.UNDIRECTED
            · simp only [hty, if_true] at hc
              cases hi2 : insert_at ga rf rs peso with
              | error e => rw [hi2] at hc; cases hc
              | ok gb =>
                rw [hi2] at hc
                simp only [Except.ok.injEq, Prod.mk.injEq, Bool.true_eq_false, false_and] at hc
            · simp only [hty, if_false, Except.ok.injEq, Prod.mk.injEq, Bool.true_eq_false,
                false_and] at hc
  · simp only [hlen, if_false] at hc
    cases hc

/-- The two calls of `insert` of an edge call in an undirected graph keep
adjacency symmetric. -/
theorem Symmetric_two_inserts (g ga g2 : Graph) (s f : Nat) (w : Weight) (vs vf : Vertex)
    (hvs : g.vertices[s]? = some vs) (hvf : g.vertices[f]? = some vf)
    (h1 : insert_at g (s : Int) (f : Int) w = Except.ok ga)
    (h2 : insert_at ga (f : Int) (s : Int) w = Except.ok g2)
    (hsym : Symmetric g) : Symmetric g2 := by
  have hp : (f : Int) ∈ vs.ids ↔ (s : Int) ∈ vf.ids := by
    rw [mem_ids_iff, mem_ids_iff]
    constructor
    · rintro ⟨w0, h⟩
      exact ⟨w0, (hsym s f w0 vs vf hvs hvf).1 h⟩
    · rintro ⟨w0, h⟩
      exact ⟨w0, (hsym s f w0 vs vf hvs hvf).2 h⟩
  obtain ⟨vf1, _, _, hvf1, _⟩ := insert_at_ok ga g2 (f : Int) (s : Int) w h2
  rw [Int.toNat_ofNat] at hvf1
  have hm1 := insert_at_mem g ga s (f : Int) w vs hvs h1
  have hm2 := insert_at_mem ga g2 f (s : Int) w vf1 hvf1 h2
  have hp1 : (s : Int) ∈ vf1.ids ↔ ((s : Int) ∈ vf.ids ∨ (f = s ∧ (f : Int) ∉ vs.ids)) := by
    obtain ⟨vf0, hvf0, _, hent⟩ := hm1 f vf1 hvf1
    rw [hvf] at hvf0
    cases hvf0
    rw [mem_ids_iff, mem_ids_iff]
    constructor
    · rintro ⟨w0, h⟩
      rcases (hent _).1 h with h | ⟨hfs, hn, he⟩
      · exact Or.inl ⟨w0, h⟩
      · exact Or.inr ⟨hfs, hn⟩
    · rintro (⟨w0, h⟩ | ⟨hfs, hn⟩)
      · exact ⟨w0, (hent _).2 (Or.inl h)⟩
      · refine ⟨w, (hent _).2 (Or.inr ⟨hfs, hn, ?_⟩)⟩
        rw [hfs]
  intro i j w0 vi2 vj2 hvi2 hvj2
  obtain ⟨vi1, hvi1, _, hei2⟩ := hm2 i vi2 hvi2
  obtain ⟨vj1, hvj1, _, hej2⟩ := hm2 j vj2 hvj2
  obtain ⟨vi, hvi, _, hei1⟩ := hm1 i vi1 hvi1
  obtain ⟨vj, hvj, _, hej1⟩ := hm1 j vj1 hvj1
  have hij := hsym i j w0 vi vj hvi hvj
  rw [hei2, hej2, hei1, hej1, hp1, ← hp]
  simp only [Entry.mk.injEq, Nat.cast_inj]
  by_cases hmem : (f : Int) ∈ vs.ids
  · simp only [hmem, not_true_eq_false, false_and, and_false, or_false, true_or]
    exact hij
  · simp only [hmem, not_false_eq_true, true_and, false_or, and_true, not_and]
    constructor
    · rintro ((h | ⟨hi, hj, hw⟩) | ⟨hi, hne, hj, hw⟩)
      · exact Or.inl (Or.inl (hij.1 h))
      · by_cases hfs : f = s
        · exact Or.inl (Or.inr ⟨by omega, by omega, hw⟩)
        · exact Or.inr ⟨hj, hfs, hi, hw⟩
      · exact Or.inl (Or.inr ⟨hj, hi, hw⟩)
    · rintro ((h | ⟨hj, hi, hw⟩) | ⟨hj, hne, hi, hw⟩)
      · exact Or.inl (Or.inl (hij.2 h))
      · by_cases hfs : f = s
        · exact Or.inl (Or.inr ⟨by omega, by omega, hw⟩)
        · exact Or.inr ⟨hi, hfs, hj, hw⟩
      · exact Or.inl (Or.inr ⟨hi, hj, hw⟩)

theorem edge_call_keeps (g g1 : Graph) (start finish : Int) (peso : Weight) (r : Bool)
    (h : Graph_AddWeightedEdge g start finish peso = Except.ok (r, g1))
    (hs : ResolvesBelowLen g start) (hf : ResolvesBelowLen g finish)
    (hin : EntriesInRange g) (hsym : g.type = eGraphType.UNDIRECTED → Symmetric g) :
    EntriesInRange g1 ∧ (g1.type = eGraphType.UNDIRECTED → Symmetric g1) := by
  cases r with
  | false =>
    rw [Graph_AddWeightedEdge_false g g1 start finish peso h]
    exact ⟨hin, hsym⟩
  | true =>
    obtain ⟨s, f, ga, _, hfs, hff, ⟨vs, hvs⟩, ⟨vf, hvf⟩, hi1, hund, hdir⟩ :=
      Graph_AddWeightedEdge_true g g1 start finish peso h
    have hslt := hs _ hfs
    have hflt := hf _ hff
    have hina := EntriesInRange_insert_at g ga s (f : Int) peso hi1 hslt (by omega) hflt hin
    obtain ⟨_, _, _, _, _, hlena, htya, _⟩ := insert_at_ok g ga (s : Int) (f : Int) peso hi1
    have hcases : g.type = eGraphType.DIRECTED ∨ g.type = eGraphType.UNDIRECTED := by
      cases g.type
      · exact Or.inr rfl
      · exact Or.inl rfl
    rcases hcases with hty | hty
    · rw [hdir hty]
      refine ⟨hina, ?_⟩
      intro hu
      rw [htya, hty] at hu
      cases hu
    · have hi2 := hund hty
      refine ⟨?_, fun _ => Symmetric_two_inserts g ga g1 s f peso vs vf hvs hvf hi1 hi2 (hsym hty)⟩
      exact EntriesInRange_insert_at ga g1 f (s : Int) peso hi2 (by rw [hlena]; exact hflt)
        (by omega) (by rw [hlena]; exact hslt) hina

/-- When no edge call is given a key that `find` resolves to an unused slot,
every entry holds the index of a slot below `len`, only slots below `len` own a
list, and in an undirected graph adjacency is symmetric. -/
theorem BuiltProper_inv (g : Graph) (hb : BuiltProper g) :
    EntriesInRange g ∧ (g.type = eGraphType.UNDIRECTED → Symmetric g) := by
  induction hb with
  | new size type g h =>
    unfold Graph_New at h
    by_cases hs : size > 0
    · simp only [hs, if_true] at h
      cases h
      have hz : ∀ (j : Nat) (v : Vertex),
          (List.replicate size.toNat zeroVertex)[j]? = some v → v = zeroVertex :=
        fun j v hv => List.eq_of_mem_replicate (List.mem_iff_getElem?.2 ⟨j, hv⟩)
      constructor
      · intro j v hv
        rw [hz j v hv]
        constructor
        · intro e he
          cases he
        · intro hn
          exact absurd rfl hn
      · intro _ i j w vi vj hvi hvj
        rw [hz i vi hvi, hz j vj hvj]
        constructor <;> intro he <;> cases he
    · simp only [hs, if_false] at h
      cases h
  | addVertex g a g1 _ h ih =>
    obtain ⟨hin1, hent⟩ := EntriesInRange_AddVertex g g1 _ _ _ _ _ _ h ih.1
    obtain ⟨_, _, _, _, hty, _⟩ := Graph_AddVertex_inv g g1 _ _ _ _ _ _ h
    exact ⟨hin1, fun hu => Symmetric_of_entries g g1 hent (ih.2 (by rw [← hty]; exact hu))⟩
  | addEdge g start finish r g1 _ hs hf h ih =>
    rw [Graph_AddEdge_eq] at h
    exact edge_call_keeps g g1 start finish 0 r h hs hf ih.1 ih.2
  | addWeightedEdge g start finish peso r g1 _ hs hf h ih =>
    exact edge_call_keeps g g1 start finish peso r h hs hf ih.1 ih.2

/-- An undirected graph with an edge between two added vertices is built
without any key resolving to an unused slot: `Graph_New( 3, UNDIRECTED )`, the
vertices 100 and 200, and the edge between 100 and 200 with weight 9.0. -/
theorem BuiltProper_example :
    ∃ g0 g1 g2 g3, Graph_New 3 eGraphType.UNDIRECTED = Except.ok g0 ∧
      Graph_AddVertex g0 100 noBytes noBytes noBytes noBytes (-6) = Except.ok g1 ∧
      Graph_AddVertex g1 200 noBytes noBytes noBytes noBytes (-5) = Except.ok g2 ∧
      Graph_AddWeightedEdge g2 100 200 9 = Except.ok (true, g3) ∧
      BuiltProper g3 ∧ EntriesInRange g3 ∧ Symmetric g3 := by
  have h2 : BuiltProper _ :=
    BuiltProper.addVertex _ ⟨200, noBytes, noBytes, noBytes, noBytes, -5⟩ _
      (BuiltProper.addVertex _ ⟨100, noBytes, noBytes, noBytes, noBytes, -6⟩ _
        (BuiltProper.new 3 eGraphType.UNDIRECTED _ rfl) rfl) rfl
  have hr2 := Built_Reachable _ (BuiltProper_Built _ h2)
  have h3 : BuiltProper _ :=
    BuiltProper.addWeightedEdge _ 100 200 9 true _ h2
      (nonzero_key_resolves _ hr2 100 (by decide))
      (nonzero_key_resolves _ hr2 200 (by decide)) rfl
  have hinv := BuiltProper_inv _ h3
  exact ⟨_, _, _, _, rfl, rfl, rfl, rfl, h3, hinv.1, hinv.2 rfl⟩

/-! ## C22 -/

/-- In a reachable graph the vertex array has exactly `size` slots. -/
theorem Reachable_length (g : Graph) (hr : Reachable g) :
    (g.vertices.length : Int) = g.size := by
  induction hr with
  | new size type g h =>
    unfold Graph_New at h
    by_cases hs : size > 0
    · simp only [hs, if_true] at h
      cases h
      simp only [List.length_replicate]
      omega
    · simp only [hs, if_false] at h
      cases h
  | addVertex g a g1 _ h ih =>
    obtain ⟨_, _, _, hs, _, _, _, _, _, _, hvs⟩ := Graph_AddVertex_inv g g1 _ _ _ _ _ _ h
    rw [hvs, List.length_set, hs]
    exact ih
  | addEdge g start finish r g1 _ h ih =>
    rw [Graph_AddEdge_eq] at h
    obtain ⟨hs, _, _, hn, _⟩ := Graph_AddWeightedEdge_grows g g1 start finish 0 r h
    rw [hn, hs]
    exact ih
  | addWeightedEdge g start finish peso r g1 _ h ih =>
    obtain ⟨hs, _, _, hn, _⟩ := Graph_AddWeightedEdge_grows g g1 start finish peso r h
    rw [hn, hs]
    exact ih
  | isNeighbor g dest src r g1 _ h ih =>
    obtain ⟨hs, _, _, hd, _⟩ := is_Neighbor_Of_same g g1 dest src r h
    have hn := congrArg List.length hd
    simp only [List.length_map] at hn
    rw [hn, hs]
    exact ih
  | vertexStart g i v v1 _ hg hv ih =>
    simp only [List.length_set]
    exact ih
  | vertexNext g i v v1 _ hg hv ih =>
    simp only [List.length_set]
    exact ih

/-- A scan of `find` over slots none of which holds `key` returns -1. -/
theorem find_loop_absent (vertices : List Vertex) (key : Int) :
    ∀ n i, (∀ j : Nat, i ≤ j → j < i + n → ∃ v, vertices[j]? = some v ∧ v.data.id ≠ key) →
      find_loop vertices key n i = Except.ok (-1) := by
  intro n
  induction n with
  | zero => intro i _; rfl
  | succ n ih =>
    intro i h
    obtain ⟨v, hv, hne⟩ := h i (le_refl _) (by omega)
    rw [find_loop, slot_natCast, hv]
    simp only [hne, if_false]
    exact ih (i + 1) (fun j h1 h2 => h j (by omega) (by omega))

/-- A scan of `find` that goes on past the slot `bound` over slots none of which
holds `key` returns what the scan up to `bound` returns. -/
theorem find_loop_extend (vertices : List Vertex) (key : Int) (bound total : Nat)
    (hle : bound ≤ total)
    (hrest : ∀ j : Nat, bound ≤ j → j < total →
      ∃ v, vertices[j]? = some v ∧ v.data.id ≠ key) :
    ∀ n i, i + n = bound →
      find_loop vertices key (total - i) i = find_loop vertices key n i := by
  intro n
  induction n with
  | zero =>
    intro i hi
    have hib : i = bound := by omega
    subst hib
    rw [find_loop_absent vertices key (total - i) i
      (fun j h1 h2 => hrest j h1 (by omega))]
    rfl
  | succ n ih =>
    intro i hi
    have hsplit : total - i = (total - (i + 1)) + 1 := by omega
    rw [hsplit, find_loop, find_loop, ih (i + 1) (by omega)]

/-- C22: in a reachable graph and for a key other than 0, the private
`find( g->vertices, g->size, key )` and `Graph_getIndexByValue( g, key )` both
return, and return the same value: -1, or the index of a slot in `[0, len)`. -/
theorem C22_find_agrees_on_nonzero_keys (g : Graph) (hr : Reachable g) (key : Int)
    (hk : key ≠ 0) :
    find g.vertices g.size key = Graph_getIndexByValue g key ∧
    ∃ r, Graph_getIndexByValue g key = Except.ok r ∧ (r = -1 ∨ (0 ≤ r ∧ r < g.len)) := by
  have hin := Reachable_LenInRange g hr
  have hlen := Reachable_length g hr
  have hzero := Reachable_zero_unused g hr
  have heq : find g.vertices g.size key = Graph_getIndexByValue g key := by
    rw [Graph_getIndexByValue_eq_find]
    unfold find
    have h := find_loop_extend g.vertices key g.len.toNat g.size.toNat
      (by have := hin.1; have := hin.2; omega)
      (fun j h1 h2 => by
        have hj : j < g.vertices.length := by omega
        refine ⟨g.vertices[j], List.getElem?_eq_getElem hj, ?_⟩
        have h0 := hzero j g.vertices[j] (List.getElem?_eq_getElem hj)
          (by have := hin.1; omega)
        rw [h0]
        exact fun h => hk h.symm)
      g.len.toNat 0 (by omega)
    simpa using h
  refine ⟨heq, ?_⟩
  rw [← heq]
  obtain ⟨r, hf, _⟩ := find_spec g.vertices g.size key (by omega)
  refine ⟨r, hf, ?_⟩
  have hres := nonzero_key_resolves g hr key hk r hf
  rcases find_result _ _ _ _ hf with h1 | ⟨k, hrk, _⟩
  · exact Or.inl h1
  · exact Or.inr ⟨by omega, hres⟩

/-- C22 on the reachable graph `twoVertices` and the key 200. -/
theorem C22_find_agrees_on_nonzero_keys_witness :
    Reachable twoVertices ∧ (200 : Int) ≠ 0 ∧
    find twoVertices.vertices twoVertices.size 200 = Graph_getIndexByValue twoVertices 200 ∧
    ∃ r, Graph_getIndexByValue twoVertices 200 = Except.ok r ∧
      (r = -1 ∨ (0 ≤ r ∧ r < twoVertices.len)) :=
  have hr : Reachable twoVertices :=
    Reachable.addVertex _ ⟨200, noBytes, noBytes, noBytes, noBytes, 0⟩ _
      (Reachable.addVertex _ ⟨100, noBytes, noBytes, noBytes, noBytes, 0⟩ _
        (Reachable.new 3 eGraphType.DIRECTED _ rfl) rfl) rfl
  ⟨hr, by decide, C22_find_agrees_on_nonzero_keys twoVertices hr 200 (by decide)⟩

/-! ## C21 -/

/-- `insert` on a vertex whose list has an entry with the id `index`: nothing
is pushed, and `List_Find` has put the cursor on the first such entry. -/
theorem insert_found (v : Vertex) (list : DLL) (index : Int) (weight : Weight) (i : Nat)
    (hn : v.neighbors = some list) (hloop : List_Find_loop index list.items 0 = some i) :
    insert v index weight =
      Except.ok { data := v.data, neighbors := some { items := list.items, cursor := Cursor.node i } } := by
  unfold insert
  simp only [hn, reduceCtorEq, if_false, find_neighbor, List_Find, hloop, Bool.true_eq_false]

theorem insert_at_found (g : Graph) (k : Nat) (v : Vertex) (list : DLL) (index : Int)
    (weight : Weight) (i : Nat) (hv : g.vertices[k]? = some v)
    (hn : v.neighbors = some list) (hloop : List_Find_loop index list.items 0 = some i) :
    insert_at g (k : Int) index weight =
      Except.ok
        { g with
          vertices := g.vertices.set k
            { data := v.data, neighbors := some { items := list.items, cursor := Cursor.node i } } } := by
  unfold insert_at
  rw [slot_natCast, hv]
  simp only [insert_found v list index weight i hn hloop, Int.toNat_ofNat]

/-- C21: when the list of the slot `s` of `a` holds an entry `(f, w1)` for the
slot `f` of `b`, `Graph_AddWeightedEdge( g, a, b, w2 )` returns `true` for any
`w2`; afterwards slot `s` has the same vertex data and the same sequence of
entries, so the entry `(f, w1)` is still there with its weight, and the cursor
of that list is on the first entry whose id is `f`, which is the entry
`(f, w1)` itself when the list holds no id twice, as in every reachable graph. -/
theorem C21_duplicate_keeps_first_weight (g : Graph) (a b : Int) (w1 w2 : Weight)
    (s f : Nat) (vs : Vertex) (hlen : 0 < g.len)
    (hs : find g.vertices g.size a = Except.ok (s : Int))
    (hf : find g.vertices g.size b = Except.ok (f : Int))
    (hvs : g.vertices[s]? = some vs)
    (hmem : ({ id := (f : Int), weight := w1 } : Entry) ∈ vs.entries) :
    ∃ g2 v2 list2 i e, Graph_AddWeightedEdge g a b w2 = Except.ok (true, g2) ∧
      g2.vertices[s]? = some v2 ∧ v2.data = vs.data ∧ v2.neighbors = some list2 ∧
      list2.items = vs.entries ∧ ({ id := (f : Int), weight := w1 } : Entry) ∈ v2.entries ∧
      list2.cursor = Cursor.node i ∧ vs.entries[i]? = some e ∧ e.id = (f : Int) ∧
      (∀ j e1, j < i → vs.entries[j]? = some e1 → e1.id ≠ (f : Int)) ∧
      (vs.ids.Nodup → e = { id := (f : Int), weight := w1 }) ∧
      (Reachable g → e = { id := (f : Int), weight := w1 }) := by
  -- the list of slot `s` and the position that `List_Find` reaches
  have hlist : ∃ list, vs.neighbors = some list := by
    cases hn : vs.neighbors with
    | none =>
      rw [entries_of_no_list vs hn] at hmem
      cases hmem
    | some list => exact ⟨list, rfl⟩
  obtain ⟨list, hn⟩ := hlist
  have hent : vs.entries = list.items := by
    unfold Vertex.entries
    rw [hn]
  rw [hent] at hmem
  have hsome : ∃ i, List_Find_loop (f : Int) list.items 0 = some i := by
    cases hl : List_Find_loop (f : Int) list.items 0 with
    | none =>
      exact absurd rfl ((List_Find_loop_none (f : Int) list.items 0).1 hl _ hmem)
    | some i => exact ⟨i, rfl⟩
  obtain ⟨i, hloop⟩ := hsome
  obtain ⟨j, e, hij, hje, hek, hfirst⟩ := List_Find_loop_some (f : Int) list.items 0 i hloop
  have hji : j = i := by omega
  subst hji
  -- the vertex that the first call of `insert` leaves in slot `s`
  have hslt := getElem?_lt_length _ _ _ hvs
  have hi1 := insert_at_found g s vs list (f : Int) w2 j hvs hn hloop
  have hnodup : vs.ids.Nodup → e = { id := (f : Int), weight := w1 } := by
    intro hnd
    unfold Vertex.ids at hnd
    rw [hent] at hnd
    have he : e ∈ list.items := List.mem_iff_getElem?.2 ⟨j, hje⟩
    exact List.inj_on_of_nodup_map hnd he hmem hek
  have hgoal : ∀ g2 : Graph,
      Graph_AddWeightedEdge g a b w2 = Except.ok (true, g2) →
      g2.vertices[s]? =
        some { data := vs.data,
               neighbors := some { items := list.items, cursor := Cursor.node j } } →
      ∃ g2 v2 list2 i e, Graph_AddWeightedEdge g a b w2 = Except.ok (true, g2) ∧
        g2.vertices[s]? = some v2 ∧ v2.data = vs.data ∧ v2.neighbors = some list2 ∧
        list2.items = vs.entries ∧ ({ id := (f : Int), weight := w1 } : Entry) ∈ v2.entries ∧
        list2.cursor = Cursor.node i ∧ vs.entries[i]? = some e ∧ e.id = (f : Int) ∧
        (∀ j e1, j < i → vs.entries[j]? = some e1 → e1.id ≠ (f : Int)) ∧
        (vs.ids.Nodup → e = { id := (f : Int), weight := w1 }) ∧
        (Reachable g → e = { id := (f : Int), weight := w1 }) := by
    intro g2 hcall hslot
    refine ⟨g2, _, _, j, e, hcall, hslot, rfl, rfl, hent.symm, hmem, rfl, ?_, hek, ?_, hnodup,
      fun hr => hnodup (Reachable_nodup g hr vs (List.mem_iff_getElem?.2 ⟨s, hvs⟩))⟩
    · rw [hent]
      exact hje
    · rw [hent]
      exact hfirst
  have hneg : ¬ ((s : Int) = -1 ∨ (f : Int) = -1) := by omega
  have hcases : g.type = eGraphType.DIRECTED ∨ g.type = eGraphType.UNDIRECTED := by
    cases g.type
    · exact Or.inr rfl
    · exact Or.inl rfl
  rcases hcases with hty | hty
  · apply hgoal _ _ _
    · exact { g with
        vertices := g.vertices.set s
          { data := vs.data, neighbors := some { items := list.items, cursor := Cursor.node j } } }
    · have hnu : ¬ g.type = eGraphType.UNDIRECTED := by
        rw [hty]
        decide
      unfold Graph_AddWeightedEdge
      simp only [gt_iff_lt, hlen, if_true, hs, hf]
      rw [if_neg hneg]
      simp only [hi1, hnu, if_false]
    · simp only [List.getElem?_set, if_true, hslt]
  · by_cases hfs : f = s
    · subst hfs
      have hi2 := insert_at_found
        { g with
          vertices := g.vertices.set f
            { data := vs.data, neighbors := some { items := list.items, cursor := Cursor.node j } } }
        f { data := vs.data, neighbors := some { items := list.items, cursor := Cursor.node j } }
        { items := list.items, cursor := Cursor.node j } (f : Int) w2 j
        (by simp only [List.getElem?_set, if_true, hslt]) rfl hloop
      apply hgoal _ _ _
      · exact { g with
          vertices := (g.vertices.set f
            { data := vs.data,
              neighbors := some { items := list.items, cursor := Cursor.node j } }).set f
            { data := vs.data, neighbors := some { items := list.items, cursor := Cursor.node j } } }
      · unfold Graph_AddWeightedEdge
        simp only [gt_iff_lt, hlen, if_true, hs, hf]
        rw [if_neg hneg]
        simp only [hi1]
        rw [if_pos hty, hi2]
      · simp only [List.getElem?_set, if_true, hslt, List.length_set]
    · rcases find_result _ _ _ _ hf with h1 | ⟨k, hrk, vf, hvf, _⟩
      · omega
      have hkf : k = f := by omega
      subst hkf
      have hvf1 : (g.vertices.set s
          { data := vs.data,
            neighbors := some { items := list.items, cursor := Cursor.node j } })[k]? = some vf := by
        rw [List.getElem?_set, if_neg (fun h : s = k => hfs h.symm)]
        exact hvf
      obtain ⟨g2, v2, hi2, _, _, _, hvs2, _⟩ :=
        insert_at_post
          { g with
            vertices := g.vertices.set s
              { data := vs.data,
                neighbors := some { items := list.items, cursor := Cursor.node j } } }
          k (s : Int) w2 vf hvf1
      apply hgoal g2
      · unfold Graph_AddWeightedEdge
        simp only [gt_iff_lt, hlen, if_true, hs, hf]
        rw [if_neg hneg]
        simp only [hi1]
        rw [if_pos hty, hi2]
      · rw [hvs2, List.getElem?_set, if_neg hfs]
        simp only [List.getElem?_set, if_true, hslt]

/-- C21 on the graph `oneEdge`, whose vertex 200 (slot 1) holds the entry
(2, 0.0) for the vertex 300, and the call with the weight 7.0. -/
theorem C21_duplicate_keeps_first_weight_witness :
    ∃ g2 v2 list2 i e, Graph_AddWeightedEdge oneEdge 200 300 7 = Except.ok (true, g2) ∧
      g2.vertices[1]? = some v2 ∧
      v2.data = (vertexOf 200 (some ⟨[⟨2, 0⟩], Cursor.node 0⟩)).data ∧
      v2.neighbors = some list2 ∧
      list2.items = (vertexOf 200 (some ⟨[⟨2, 0⟩], Cursor.node 0⟩)).entries ∧
      ({ id := ((2 : Nat) : Int), weight := 0 } : Entry) ∈ v2.entries ∧
      list2.cursor = Cursor.node i ∧
      (vertexOf 200 (some ⟨[⟨2, 0⟩], Cursor.node 0⟩)).entries[i]? = some e ∧
      e.id = ((2 : Nat) : Int) ∧
      (∀ j e1, j < i →
        (vertexOf 200 (some ⟨[⟨2, 0⟩], Cursor.node 0⟩)).entries[j]? = some e1 → e1.id ≠ ((2 : Nat) : Int)) ∧
      ((vertexOf 200 (some ⟨[⟨2, 0⟩], Cursor.node 0⟩)).ids.Nodup →
        e = { id := ((2 : Nat) : Int), weight := 0 }) ∧
      (Reachable oneEdge → e = { id := ((2 : Nat) : Int), weight := 0 }) :=
  C21_duplicate_keeps_first_weight oneEdge 200 300 0 7 1 2
    (vertexOf 200 (some ⟨[⟨2, 0⟩], Cursor.node 0⟩))
    (by decide) rfl rfl rfl (List.mem_singleton.2 rfl)

end Practica6
